import Mathlib

/-!
Verification of the json-multi-param parameter registry (C++ sources:
`param_set.cpp`/`param_set.h`, `param.h`, `param_base.h`, `constraints.h`,
`value_type_traits.h`) against its natural-language specification.

The embedding models the kinds actually produced by the parameter data we
reason about: `Integer` (C++ `int`, embedded as unbounded `Int` — no claim
exercises overflow), `Boolean` and `String`.  `UnsignedInteger` and
`FloatingPoint` appear in the `ValueType` tag for fidelity of the dispatch
code, but no modelled parameter carries them (floating-point formatting is
not shallowly embeddable).  C++ byte strings are embedded as Lean `String`s
whose characters stand for single bytes; lexicographic comparison of Lean
strings coincides with the byte-wise ordinal comparison `std::sort` performs
on such names.  A C++ `bool f(args, std::string& error)` out-parameter API is
embedded as `Option String` (`none` = success) or `Except String α`; member
functions mutating `*this` return the updated value.
-/

namespace JsonMP

/-- Decidable equality for `Except` results, so concrete runs of the
embedded operations can be checked by `decide`. -/
instance {ε α : Type} [DecidableEq ε] [DecidableEq α] : DecidableEq (Except ε α) := fun a b =>
  match a, b with
  | .error x, .error y =>
    if h : x = y then .isTrue (by rw [h]) else .isFalse (fun hc => h (by injection hc))
  | .ok x, .ok y =>
    if h : x = y then .isTrue (by rw [h]) else .isFalse (fun hc => h (by injection hc))
  | .error _, .ok _ => .isFalse (fun hc => by injection hc)
  | .ok _, .error _ => .isFalse (fun hc => by injection hc)

/-- Logical type of a parameter's value (`ValueType` in `param_base.h`). -/
inductive ValueType
  | Integer
  | UnsignedInteger
  | FloatingPoint
  | Boolean
  | String
  deriving DecidableEq

/-- Constraints for `int` parameters (`Constraints<int>` in `constraints.h`). -/
structure ConstraintsInt where
  has_min : Bool
  min : Int
  has_max : Bool
  max : Int
  deriving DecidableEq

/-- A `Constraints<int>` with all fields at their declared defaults. -/
def noConstraintsInt : ConstraintsInt := ⟨false, 0, false, 0⟩

/-- Constraints for `std::string` parameters (`Constraints<std::string>` in
`constraints.h`). -/
structure ConstraintsString where
  has_min_length : Bool
  min_length : Nat
  has_max_length : Bool
  max_length : Nat
  has_regex : Bool
  regex : String
  has_allowed : Bool
  allowed_values : List String
  deriving DecidableEq

/-- A `Constraints<std::string>` with all fields at their declared defaults. -/
def noConstraintsString : ConstraintsString := ⟨false, 0, false, 0, false, "", false, []⟩

/-- `validate_constraints<int>` (`param.h`): minimum checked first, then
maximum.  Returns `some msg` on failure (the C++ sets `error` and returns
`false`), `none` when all enabled constraints hold. -/
def validate_constraints_int (c : ConstraintsInt) (value : Int) : Option String :=
  if c.has_min ∧ value < c.min then
    some ("Value " ++ toString value ++ " is below minimum " ++ toString c.min)
  else if c.has_max ∧ value > c.max then
    some ("Value " ++ toString value ++ " is above maximum " ++ toString c.max)
  else
    none

/-- `validate_constraints<std::string>` (`param.h`): length bounds first
(minimum, then maximum), then the allowed-values whitelist. -/
def validate_constraints_string (c : ConstraintsString) (value : String) : Option String :=
  let len := value.length
  if c.has_min_length ∧ len < c.min_length then
    some ("String length " ++ toString len ++ " is below minimum " ++ toString c.min_length)
  else if c.has_max_length ∧ len > c.max_length then
    some ("String length " ++ toString len ++ " is above maximum " ++ toString c.max_length)
  else if c.has_allowed ∧ value ∉ c.allowed_values then
    some ("Value '" ++ value ++ "' is not in allowed set")
  else
    none

/-! ### Stream-based numeric text conversion

`Param<T>::from_string` uses `std::istringstream` extraction and
`Param<T>::to_string` uses `std::ostringstream` insertion.  The models below
follow the C-locale, base-10 `num_get`/`num_put` semantics: extraction skips
leading whitespace, consumes an optional sign and at least one decimal digit,
stops at the first non-digit (trailing characters are not an error), and
fails when no digit was consumed. -/

/-- Whitespace skipped by stream extraction (`std::isspace`, C locale). -/
def isStreamSpace (c : Char) : Bool :=
  c = ' ' ∨ c = '\t' ∨ c = '\n' ∨ c = '\x0b' ∨ c = '\x0c' ∨ c = '\r'

/-- ASCII decimal digit test. -/
def isAsciiDigit (c : Char) : Bool :=
  '0' ≤ c ∧ c ≤ '9'

/-- Numeric value of an ASCII digit character. -/
def digitVal (c : Char) : Nat :=
  c.toNat - '0'.toNat

/-- Accumulate a run of decimal digits, most significant first. -/
def parseDigitsAcc (acc : Nat) : List Char → Nat
  | [] => acc
  | c :: cs => parseDigitsAcc (10 * acc + digitVal c) cs

/-- Digit-run part of stream extraction: a non-empty run of decimal digits,
stopping at the first non-digit (trailing characters are not an error). -/
def parseStreamNat (l : List Char) : Option Nat :=
  let ds := l.takeWhile isAsciiDigit
  if ds = [] then none else some (parseDigitsAcc 0 ds)

/-- Sign-and-digits part of stream extraction (after whitespace skipping):
an optional `-` or `+`, then the digit run. -/
def parseStreamIntChars : List Char → Option Int
  | [] => none
  | c :: cs =>
    if c = '-' then (parseStreamNat cs).map (fun m => -(m : Int))
    else if c = '+' then (parseStreamNat cs).map (fun m => (m : Int))
    else (parseStreamNat (c :: cs)).map (fun m => (m : Int))

/-- Model of `istringstream >> n` for an integer target: skip whitespace,
optional `-`/`+` sign, a non-empty run of decimal digits; `none` when
extraction fails. -/
def parseStreamInt (s : String) : Option Int :=
  parseStreamIntChars (s.data.dropWhile isStreamSpace)

/-- Decimal digit characters of `n`, most significant first, appended in
front of `acc`. -/
def natDecAux (n : Nat) (acc : List Char) : List Char :=
  if n < 10 then Nat.digitChar n :: acc
  else natDecAux (n / 10) (Nat.digitChar (n % 10) :: acc)
termination_by n
decreasing_by
  exact Nat.div_lt_self (by omega) (by omega)

/-- Fuel-driven evaluator for `natDecAux` (structurally recursive, so that
concrete instances reduce inside the kernel; `natDecAuxF_eq` identifies it
with `natDecAux` whenever the fuel suffices). -/
def natDecAuxF : Nat → Nat → List Char → List Char
  | 0, _, acc => acc
  | fuel + 1, n, acc =>
    if n < 10 then Nat.digitChar n :: acc
    else natDecAuxF fuel (n / 10) (Nat.digitChar (n % 10) :: acc)

/-- Decimal digit characters of `n`, most significant first. -/
def natDecChars (n : Nat) : List Char := natDecAuxF (n + 1) n []

/-- Model of `ostringstream << v` for an `int`: base-10, `-` sign for
negative values (what `Param<int>::to_string` produces). -/
def intToDecString (v : Int) : String :=
  if v < 0 then ⟨'-' :: natDecChars v.natAbs⟩ else ⟨natDecChars v.natAbs⟩

/-! ### Parameters

`Param<T>` (`param.h`) owns a current value, the default value fixed at
construction, and the constraint set.  The name and `ValueType` tag live in
`ParamBase`; in the registry embedding the name is the association key, so
`ParamData` carries the rest. -/

/-- The stored data of one typed parameter (`Param<int>`, `Param<bool>`,
`Param<std::string>`).  `Constraints<bool>` has no members, so `pbool`
carries none. -/
inductive ParamData
  | pint (value : Int) (default_value : Int) (constraints : ConstraintsInt)
  | pbool (value : Bool) (default_value : Bool)
  | pstr (value : String) (default_value : String) (constraints : ConstraintsString)
  deriving DecidableEq

/-- A typed value, as passed to `ParamSet::set<T>` / returned by `get<T>`. -/
inductive Value
  | vint (n : Int)
  | vbool (b : Bool)
  | vstr (s : String)
  deriving DecidableEq

/-- `ParamBase::getType()` for the modelled parameter data. -/
def ParamData.getType : ParamData → ValueType
  | .pint _ _ _ => .Integer
  | .pbool _ _ => .Boolean
  | .pstr _ _ _ => .String

/-- The current value of a parameter, as a typed `Value`. -/
def ParamData.currentValue : ParamData → Value
  | .pint v _ _ => .vint v
  | .pbool v _ => .vbool v
  | .pstr v _ _ => .vstr v

/-- The schema part of a parameter: kind, default and constraints, with the
current value normalized to the default.  Two parameters "share a schema"
exactly when their `schemaOf` agree. -/
def ParamData.schemaOf : ParamData → ParamData
  | .pint _ d c => .pint d d c
  | .pbool _ d => .pbool d d
  | .pstr _ d c => .pstr d d c

/-- Whether the currently stored value satisfies the parameter's own
constraints (the code does not enforce this at declaration time). -/
def ParamData.validOK : ParamData → Bool
  | .pint v _ c => (validate_constraints_int c v).isNone
  | .pbool _ _ => true
  | .pstr v _ c => (validate_constraints_string c v).isNone

/-- `Param<T>::to_string` (`param.h`): stream insertion for `int`
(base-10), `"1"`/`"0"` for `bool` (`noboolalpha`), the value verbatim for
`std::string` (explicit specialization). -/
def ParamData.to_string : ParamData → String
  | .pint v _ _ => intToDecString v
  | .pbool v _ => if v then "1" else "0"
  | .pstr v _ _ => v

/-- `Param<T>::set` (`param.h`): validate against the constraints, then
store.  Returns the updated parameter, or the validation error message. -/
def ParamData.set : ParamData → Value → Except String ParamData
  | .pint _ d c, .vint n =>
    match validate_constraints_int c n with
    | some e => .error e
    | none => .ok (.pint n d c)
  | .pbool _ d, .vbool b => .ok (.pbool b d)
  | .pstr _ d c, .vstr s =>
    match validate_constraints_string c s with
    | some e => .error e
    | none => .ok (.pstr s d c)
  | p, _ => .error ("Type mismatch for parameter template: " ++ p.to_string)

/-- `Param<T>::from_string` (`param.h`): stream-extract a `T`, then go
through `set`.  For `bool` the extraction is `operator>>(bool)` without
`boolalpha`: a `long` is extracted and only the values `0` and `1` are
accepted (anything else sets `failbit`).  For `std::string` the explicit
specialization assigns the text directly through `set`. -/
def ParamData.from_string : ParamData → String → Except String ParamData
  | .pint _ d c, repr =>
    match parseStreamInt repr with
    | none => .error ("Failed to parse value from string: '" ++ repr ++ "'")
    | some n =>
      match validate_constraints_int c n with
      | some e => .error e
      | none => .ok (.pint n d c)
  | .pbool _ d, repr =>
    match parseStreamInt repr with
    | some 0 => .ok (.pbool false d)
    | some 1 => .ok (.pbool true d)
    | _ => .error ("Failed to parse value from string: '" ++ repr ++ "'")
  | .pstr _ d c, repr =>
    match validate_constraints_string c repr with
    | some e => .error e
    | none => .ok (.pstr repr d c)

/-! ### The registry

`ParamSet` (`param_set.h`) owns an `unordered_map<string, unique_ptr<ParamBase>>`.
The map is embedded as an association list with unique keys (uniqueness is a
hypothesis where a theorem needs it); the list order is an embedding artifact
— the C++ container is unordered, and every serialization sorts names. -/

/-- The registry contents: name to parameter data. -/
abbrev Registry := List (String × ParamData)

/-- `params.find(name)` on the association list. -/
def findParam : Registry → String → Option ParamData
  | [], _ => none
  | (a, p) :: rest, name => if a = name then some p else findParam rest name

/-- In-place mutation of the parameter stored under `name` (the C++ updates
the `Param<T>` object through its pointer). -/
def updateParam : Registry → String → ParamData → Registry
  | [], _, _ => []
  | (a, q) :: rest, name, p =>
    if a = name then (a, p) :: rest else (a, q) :: updateParam rest name p

/-- `ParamSet::add<T>` (`param_set.h`): fails when the name exists, else
constructs `Param<T>(name, default_value, constraints)` — whose constructor
initializes the current value to the default with no constraint check. -/
def ParamSet.add (ps : Registry) (name : String) (p : ParamData) : Except String Registry :=
  match findParam ps name with
  | some _ => .error ("Parameter already exists: " ++ name)
  | none => .ok (ps ++ [(name, p)])

/-- `ParamSet::addInt`. -/
def ParamSet.addInt (ps : Registry) (name : String) (default_value : Int)
    (c : ConstraintsInt) : Except String Registry :=
  ParamSet.add ps name (.pint default_value default_value c)

/-- `ParamSet::addBool`. -/
def ParamSet.addBool (ps : Registry) (name : String) (default_value : Bool) :
    Except String Registry :=
  ParamSet.add ps name (.pbool default_value default_value)

/-- `ParamSet::addString`. -/
def ParamSet.addString (ps : Registry) (name : String) (default_value : String)
    (c : ConstraintsString) : Except String Registry :=
  ParamSet.add ps name (.pstr default_value default_value c)

/-- Does a typed value match a parameter's stored type (the
`dynamic_cast<Param<T>*>` test in `ParamSet::set`/`get`)? -/
def kindMatches : ParamData → Value → Bool
  | .pint _ _ _, .vint _ => true
  | .pbool _ _, .vbool _ => true
  | .pstr _ _ _, .vstr _ => true
  | _, _ => false

/-- `ParamSet::set<T>` (`param_set.h`): unknown name, then failed
`dynamic_cast`, then `Param<T>::set` (validation).  Returns the updated
registry and `none`, or the unchanged registry and the error message. -/
def ParamSet.set (ps : Registry) (name : String) (v : Value) : Registry × Option String :=
  match findParam ps name with
  | none => (ps, some ("Unknown parameter: " ++ name))
  | some p =>
    if kindMatches p v then
      match p.set v with
      | .error e => (ps, some e)
      | .ok p' => (updateParam ps name p', none)
    else
      (ps, some ("Type mismatch for parameter: " ++ name))

/-- `ParamSet::get<int>` (`param_set.h`); the C++ throws, embedded as
`Except`. -/
def ParamSet.getInt (ps : Registry) (name : String) : Except String Int :=
  match findParam ps name with
  | none => .error ("Unknown parameter: " ++ name)
  | some (.pint v _ _) => .ok v
  | some _ => .error ("Type mismatch for parameter: " ++ name)

/-- `ParamSet::get<bool>`. -/
def ParamSet.getBool (ps : Registry) (name : String) : Except String Bool :=
  match findParam ps name with
  | none => .error ("Unknown parameter: " ++ name)
  | some (.pbool v _) => .ok v
  | some _ => .error ("Type mismatch for parameter: " ++ name)

/-- `ParamSet::get<std::string>`. -/
def ParamSet.getString (ps : Registry) (name : String) : Except String String :=
  match findParam ps name with
  | none => .error ("Unknown parameter: " ++ name)
  | some (.pstr v _ _) => .ok v
  | some _ => .error ("Type mismatch for parameter: " ++ name)

/-! ### Compact codec (`param_set.cpp`) -/

/-- `ParamSet::escape_compact`, on the character list: a backslash is
inserted before each of `\`, `;`, `=`; every other character is copied. -/
def escapeChars : List Char → List Char
  | [] => []
  | c :: cs =>
    if c = '\\' ∨ c = ';' ∨ c = '=' then '\\' :: c :: escapeChars cs
    else c :: escapeChars cs

/-- `ParamSet::escape_compact`. -/
def escape_compact (s : String) : String := ⟨escapeChars s.data⟩

/-- Body of `ParamSet::unescape_compact`: `escaping` is the state of the
pending-backslash flag; a backslash left pending at end of input is the
trailing-backslash error. -/
def unescapeAux : List Char → Bool → Except String (List Char)
  | [], true => .error "Invalid escape sequence: trailing backslash"
  | [], false => .ok []
  | c :: cs, true => (unescapeAux cs false).map (c :: ·)
  | c :: cs, false =>
    if c = '\\' then unescapeAux cs true
    else (unescapeAux cs false).map (c :: ·)

/-- `ParamSet::unescape_compact`. -/
def unescape_compact (s : String) : Except String String :=
  (unescapeAux s.data false).map (⟨·⟩)

/-- Byte-wise lexicographic "less or equal" on character lists: the order
`std::sort` applies to `std::string` keys (`char_traits<char>::compare`,
i.e. memcmp over bytes; characters here stand for single bytes, compared by
code point). -/
def charListLe : List Char → List Char → Bool
  | [], _ => true
  | _ :: _, [] => false
  | a :: as, b :: bs =>
    if a.toNat < b.toNat then true
    else if b.toNat < a.toNat then false
    else charListLe as bs

/-- Byte-wise lexicographic comparison of strings. -/
def strLe (a b : String) : Bool := charListLe a.data b.data

/-- The name-collection and sort in `to_compact_string`/`to_json`:
`std::sort` over the collected `std::string` keys, with its byte-wise
lexicographic comparison. -/
def sortedNames (ps : Registry) : List String :=
  List.insertionSort (fun a b : String => strLe a b = true) (ps.map Prod.fst)

/-- The `oss << ';'`-between-entries loop shape of `to_compact_string`:
join chunks with a single `;`, no trailing separator. -/
def joinSemi : List (List Char) → List Char
  | [] => []
  | [t] => t
  | t :: ts => t ++ ';' :: joinSemi ts

/-- One `name=escaped_value` chunk of the compact output. -/
def compactPair (name : String) (p : ParamData) : List Char :=
  name.data ++ '=' :: escapeChars p.to_string.data

/-- `ParamSet::to_compact_string`: names sorted lexicographically, each
rendered as `name=escape_compact(to_string())`, joined with `;`.  The
lookup `params.find(name)` cannot miss (names come from the map), mirrored
by `filterMap`. -/
def to_compact_string (ps : Registry) : String :=
  ⟨joinSemi ((sortedNames ps).filterMap
    (fun n => (findParam ps n).map (fun p => compactPair n p)))⟩

/-- The first-unescaped-`=` scan inside `flush_token` (`eq_pos` search):
`i` is the index of the current character, `esc` the `eq_escaping` flag. -/
def findEqAux : List Char → Nat → Bool → Option Nat
  | [], _, _ => none
  | c :: cs, i, esc =>
    if esc then findEqAux cs (i + 1) false
    else if c = '\\' then findEqAux cs (i + 1) true
    else if c = '=' then some i
    else findEqAux cs (i + 1) false

/-- The `flush_token` lambda in `ParamSet::from_compact_string`: skip empty
tokens; split at the first unescaped `=` (missing `=` is a malformed-token
error); look the name up (unknown name is fatal); unescape the value; apply
it through `Param::from_string`. -/
def flush_token (ps : Registry) (t : List Char) : Registry × Option String :=
  if t = [] then (ps, none)
  else
    match findEqAux t 0 false with
    | none =>
      (ps, some ("Invalid token in compact string (missing '='): '" ++ (⟨t⟩ : String) ++ "'"))
    | some i =>
      match findParam ps ⟨t.take i⟩ with
      | none =>
        (ps, some ("Unknown parameter in compact string: '" ++ (⟨t.take i⟩ : String) ++ "'"))
      | some p =>
        match unescape_compact ⟨t.drop (i + 1)⟩ with
        | .error e => (ps, some e)
        | .ok value =>
          match p.from_string value with
          | .error e => (ps, some e)
          | .ok p' => (updateParam ps ⟨t.take i⟩ p', none)

/-- The character loop of `ParamSet::from_compact_string`: `token` is the
accumulated token (escape sequences kept verbatim, as the C++ pushes both
the backslash and the escaped character), `esc` the `escaping` flag.
Tokens are flushed — and the registry mutated — as each `;` is reached; a
pending backslash at end of input is the trailing-backslash error, reported
before the final token is flushed. -/
def fromCompactLoop (ps : Registry) : List Char → List Char → Bool → Registry × Option String
  | [], token, esc =>
    if esc then (ps, some "Invalid compact string: trailing backslash")
    else flush_token ps token
  | c :: cs, token, esc =>
    if esc then fromCompactLoop ps cs (token ++ ['\\', c]) false
    else if c = '\\' then fromCompactLoop ps cs token true
    else if c = ';' then
      match flush_token ps token with
      | (ps', none) => fromCompactLoop ps' cs [] false
      | (ps', some e) => (ps', some e)
    else fromCompactLoop ps cs (token ++ [c]) false

/-- `ParamSet::from_compact_string`: returns the (possibly partially
mutated) registry and `none` on success or the error message. -/
def from_compact_string (ps : Registry) (s : String) : Registry × Option String :=
  fromCompactLoop ps s.data [] false

/-! ### Document codec (`param_set.cpp`, nlohmann JSON)

A JSON document value.  `jint` covers integer-stored numbers
(`is_number_integer()`); `jfloatLit` a non-integer number, carried as its
serialized literal (its numeric value is never needed by the modelled
paths); `jother` any other JSON value (`null`, arrays, objects), carried as
its `dump()` text.  A document is an association list of members; nlohmann's
`object_t` is a `std::map`, so iteration visits keys in sorted order and
keys are unique — theorems add these facts as hypotheses where they matter. -/

inductive JValue
  | jbool (b : Bool)
  | jint (n : Int)
  | jfloatLit (lit : String)
  | jstr (s : String)
  | jother (dumpRepr : String)
  deriving DecidableEq

/-- `json::dump()` for the modelled values.  For `jstr` the C++ emits a
quoted, JSON-escaped literal; no modelled code path ever dumps a string
value (`is_string()` is always tested first), so the inner escaping is
elided. -/
def JValue.dump : JValue → String
  | .jbool b => if b then "true" else "false"
  | .jint n => intToDecString n
  | .jfloatLit lit => lit
  | .jstr s => "\"" ++ s ++ "\""
  | .jother d => d

/-- The per-parameter emission switch of `ParamSet::to_json`: the value is
re-read from `to_string()` text (`repr`).  `std::stoi` is modelled by
`parseStreamInt` (identical skip-space/sign/digits semantics); it cannot
fail on `Param<int>::to_string` output, so the exception path is collapsed
to a default. -/
def ParamData.toJsonValue (p : ParamData) : JValue :=
  let repr := p.to_string
  match p.getType with
  | .Integer => .jint ((parseStreamInt repr).getD 0)
  | .UnsignedInteger => .jint ((parseStreamInt repr).getD 0)
  | .FloatingPoint => .jfloatLit repr
  | .Boolean =>
    if repr = "1" ∨ repr = "true" ∨ repr = "True" then .jbool true
    else if repr = "0" ∨ repr = "false" ∨ repr = "False" then .jbool false
    else .jbool false
  | .String => .jstr repr

/-- `ParamSet::to_json`: same sorted-name traversal as the compact codec,
each parameter emitted natively. -/
def to_json (ps : Registry) : List (String × JValue) :=
  (sortedNames ps).filterMap
    (fun n => (findParam ps n).map (fun p => (n, p.toJsonValue)))

/-- The JSON-value-to-string coercion switch of `ParamSet::from_json`,
per target kind: booleans accept `is_boolean()`, `is_number_integer()`
(nonzero becomes `"1"`) or `is_string()`; numerics accept `is_number()`
(via `dump()`) or `is_string()`; strings accept `is_string()` directly and
anything else through `dump()`. -/
def jsonValueString (t : ValueType) (name : String) (v : JValue) : Except String String :=
  match t with
  | .Boolean =>
    match v with
    | .jbool b => .ok (if b then "1" else "0")
    | .jint k => .ok (if k ≠ 0 then "1" else "0")
    | .jstr s => .ok s
    | _ => .error ("Invalid JSON type for boolean parameter: '" ++ name ++ "'")
  | .Integer | .UnsignedInteger | .FloatingPoint =>
    match v with
    | .jint k => .ok (JValue.dump (.jint k))
    | .jfloatLit lit => .ok lit
    | .jstr s => .ok s
    | _ => .error ("Invalid JSON type for numeric parameter: '" ++ name ++ "'")
  | .String =>
    match v with
    | .jstr s => .ok s
    | other => .ok other.dump

/-- The member loop of `ParamSet::from_json`: look each key up (unknown
name is fatal), coerce the JSON value to the string form `from_string`
accepts, and apply it.  The `is_object()` pre-check is carried by the
association-list representation itself. -/
def fromJsonLoop (ps : Registry) : List (String × JValue) → Registry × Option String
  | [] => (ps, none)
  | (name, v) :: rest =>
    match findParam ps name with
    | none => (ps, some ("Unknown parameter in JSON: '" ++ name ++ "'"))
    | some p =>
      match jsonValueString p.getType name v with
      | .error e => (ps, some e)
      | .ok value =>
        match p.from_string value with
        | .error e => (ps, some e)
        | .ok p' => fromJsonLoop (updateParam ps name p') rest

/-- `ParamSet::from_json`. -/
def from_json (ps : Registry) (doc : List (String × JValue)) : Registry × Option String :=
  fromJsonLoop ps doc

/-! ### Observation helpers for the theorems -/

/-- The schema view of a registry: every parameter reduced to its
`schemaOf` (kind, default, constraints).  Two registries "declared with the
same schema" have equal `schemaMap`s; decoding never changes it. -/
def schemaMap (ps : Registry) : List (String × ParamData) :=
  ps.map (fun e => (e.1, e.2.schemaOf))

/-- A parameter name free of the compact format's structural characters.
`to_compact_string` never escapes names, so only such names survive the
compact codec. -/
def goodName (n : String) : Bool :=
  n.data.all (fun c => ¬(c = '\\' ∨ c = ';' ∨ c = '='))

/-- Character runs the compact-string scanner copies verbatim into the
current token: no unescaped `;`, and no backslash left dangling at the
end. -/
inductive ScanSafe : List Char → Prop
  | nil : ScanSafe []
  | esc (c : Char) (cs : List Char) : ScanSafe cs → ScanSafe ('\\' :: c :: cs)
  | chr (c : Char) (cs : List Char) : c ≠ '\\' → c ≠ ';' → ScanSafe cs → ScanSafe (c :: cs)

/-- The token decomposition of a compact input, mirroring the scanner of
`from_compact_string` (spec §4.3 steps 1–2): split on unescaped `;`,
keeping escape sequences verbatim inside tokens.  Used only to express
which names an input "mentions". -/
def splitAux : List Char → List Char → Bool → List (List Char)
  | [], token, _ => [token]
  | c :: cs, token, esc =>
    if esc then splitAux cs (token ++ ['\\', c]) false
    else if c = '\\' then splitAux cs token true
    else if c = ';' then token :: splitAux cs [] false
    else splitAux cs (token ++ [c]) false

/-- The names a compact input mentions: for each non-empty token, the part
before the first unescaped `=` (spec §4.3 step 2). -/
def compactMentions (s : String) : List String :=
  (splitAux s.data [] false).filterMap
    (fun t => if t = [] then none else (findEqAux t 0 false).map (fun i => (⟨t.take i⟩ : String)))

/-- The compact chunk a registry emits for one of its names (total form of
`compactPair` over a lookup, used to phrase the round-trip induction). -/
def pairOf (r : Registry) (n : String) : List Char :=
  match findParam r n with
  | some p => compactPair n p
  | none => []

/-- The document member a registry emits for one of its names. -/
def jsonPairOf (r : Registry) (n : String) : String × JValue :=
  match findParam r n with
  | some p => (n, p.toJsonValue)
  | none => (n, .jother "")

/-! ### Concrete fixtures for witnesses and counterexamples

These replay the spec's §8 scenario (`speed` int in [0,200] default 50,
`mode` text in {AUTO, MANUAL} default AUTO) and small variants. -/

/-- Bounds [0,200] for `speed`. -/
def cSpeed : ConstraintsInt := ⟨true, 0, true, 200⟩

/-- Whitelist {AUTO, MANUAL} for `mode`. -/
def cMode : ConstraintsString := ⟨false, 0, false, 0, false, "", true, ["AUTO", "MANUAL"]⟩

/-- Registry after `set(speed,120)`, `set(mode,MANUAL)`. -/
def demoReg : Registry :=
  [("speed", .pint 120 50 cSpeed), ("mode", .pstr "MANUAL" "AUTO" cMode)]

/-- Fresh registry declared with the same schema. -/
def demoFresh : Registry :=
  [("speed", .pint 50 50 cSpeed), ("mode", .pstr "AUTO" "AUTO" cMode)]

/-- Whitelist {AUTO} — the default "X" below violates it. -/
def cAllowOnly : ConstraintsString := ⟨false, 0, false, 0, false, "", true, ["AUTO"]⟩

/-- Source registry for the C1 counterexample: parameter `a` keeps its
declared (never-validated) default "X", which violates its own whitelist;
`b` was legitimately set to 7. -/
def cexSrc : Registry :=
  [("a", .pstr "X" "X" cAllowOnly), ("b", .pint 7 0 noConstraintsInt)]

/-- Fresh registry declared with the same schema as `cexSrc`. -/
def cexDst : Registry :=
  [("a", .pstr "X" "X" cAllowOnly), ("b", .pint 0 0 noConstraintsInt)]

/-- Maximum-10 bound used by the non-transactionality fixture. -/
def cMax10 : ConstraintsInt := ⟨false, 0, true, 10⟩

/-- Starting state for the C6 fixture: both parameters at 0. -/
def txReg : Registry :=
  [("a", .pint 0 0 noConstraintsInt), ("b", .pint 0 0 cMax10)]

/-- State after the partially-applied decode: `a` already mutated to 5. -/
def txRegAfter : Registry :=
  [("a", .pint 5 0 noConstraintsInt), ("b", .pint 0 0 cMax10)]

/-- One boolean parameter, for the document-codec boolean coercion claims. -/
def flagReg : Registry := [("flag", .pbool false false)]

/-- The same two declarations as `demoReg`, replayed in the opposite order. -/
def demoRegSwapped : Registry :=
  [("mode", .pstr "MANUAL" "AUTO" cMode), ("speed", .pint 120 50 cSpeed)]

/-- A text parameter holding the spec's §8 escaping scenario value. -/
def escReg : Registry := [("t", .pstr "a=b; c=\\path\\file; end" "" noConstraintsString)]

/-- Fresh registry declared with the same schema as `escReg`. -/
def escFresh : Registry := [("t", .pstr "" "" noConstraintsString)]

/-- Length bounds [2,4] together with an active whitelist, one of whose
entries violates the length bounds. -/
def cBoth : ConstraintsString := ⟨true, 2, true, 4, false, "", true, ["AUTO", "VERYLONGNAME"]⟩

/-! ## Lemmas: decimal rendering round-trips through stream extraction -/

theorem parseDigitsAcc_nil (a : Nat) : parseDigitsAcc a [] = a := rfl

theorem parseDigitsAcc_cons (a : Nat) (c : Char) (t : List Char) :
    parseDigitsAcc a (c :: t) = parseDigitsAcc (10 * a + digitVal c) t := rfl

theorem natDecAux_append (n : Nat) : ∀ acc : List Char, natDecAux n acc = natDecAux n [] ++ acc := by
  induction n using Nat.strongRecOn with
  | _ n ih =>
    intro acc
    rw [natDecAux]
    conv_rhs => rw [natDecAux]
    by_cases h : n < 10
    · simp [h]
    · simp only [if_neg h]
      have hlt : n / 10 < n := Nat.div_lt_self (by omega) (by omega)
      rw [ih (n / 10) hlt (Nat.digitChar (n % 10) :: acc),
        ih (n / 10) hlt [Nat.digitChar (n % 10)]]
      simp

theorem natDecAuxF_eq : ∀ (fuel n : Nat) (acc : List Char), n < fuel →
    natDecAuxF fuel n acc = natDecAux n acc := by
  intro fuel
  induction fuel with
  | zero => intro n acc h; omega
  | succ fuel ih =>
    intro n acc h
    rw [natDecAuxF, natDecAux]
    by_cases h10 : n < 10
    · rw [if_pos h10, if_pos h10]
    · rw [if_neg h10, if_neg h10]
      have hlt : n / 10 < fuel := by
        have h1 : n / 10 < n := Nat.div_lt_self (by omega) (by omega)
        omega
      exact ih (n / 10) _ hlt

theorem natDecChars_eq (n : Nat) : natDecChars n = natDecAux n [] :=
  natDecAuxF_eq (n + 1) n [] (by omega)

theorem natDecChars_unfold (n : Nat) :
    natDecChars n
      = (if n < 10 then [] else natDecChars (n / 10)) ++ [Nat.digitChar (n % 10)] := by
  rw [natDecChars_eq, natDecAux]
  by_cases h : n < 10
  · simp [h, Nat.mod_eq_of_lt h]
  · simp only [if_neg h]
    rw [natDecChars_eq]
    exact natDecAux_append (n / 10) [Nat.digitChar (n % 10)]

theorem natDecChars_ne_nil (n : Nat) : natDecChars n ≠ [] := by
  rw [natDecChars_unfold]; simp

theorem digitVal_digitChar : ∀ m : Nat, m < 10 → digitVal (Nat.digitChar m) = m := by
  decide

theorem isAsciiDigit_digitChar : ∀ m : Nat, m < 10 → isAsciiDigit (Nat.digitChar m) = true := by
  decide

theorem natDecChars_all_digits (n : Nat) : ∀ c ∈ natDecChars n, isAsciiDigit c = true := by
  induction n using Nat.strongRecOn with
  | _ n ih =>
    rw [natDecChars_unfold]
    intro c hc
    rcases List.mem_append.mp hc with h | h
    · by_cases h10 : n < 10
      · simp [h10] at h
      · simp only [if_neg h10] at h
        exact ih (n / 10) (Nat.div_lt_self (by omega) (by omega)) c h
    · rw [List.mem_singleton] at h
      subst h
      exact isAsciiDigit_digitChar (n % 10) (Nat.mod_lt _ (by omega))

theorem parseDigitsAcc_append (l₁ l₂ : List Char) :
    ∀ a : Nat, parseDigitsAcc a (l₁ ++ l₂) = parseDigitsAcc (parseDigitsAcc a l₁) l₂ := by
  induction l₁ with
  | nil => intro a; rfl
  | cons c t ih =>
    intro a
    rw [List.cons_append, parseDigitsAcc_cons, parseDigitsAcc_cons, ih]

theorem parseDigitsAcc_natDecChars (n : Nat) :
    ∀ a : Nat, parseDigitsAcc a (natDecChars n) = a * 10 ^ (natDecChars n).length + n := by
  induction n using Nat.strongRecOn with
  | _ n ih =>
    intro a
    rw [natDecChars_unfold]
    by_cases h : n < 10
    · simp only [if_pos h, List.nil_append, List.length_singleton]
      rw [parseDigitsAcc_cons, parseDigitsAcc_nil,
        digitVal_digitChar (n % 10) (Nat.mod_lt _ (by omega))]
      omega
    · simp only [if_neg h]
      rw [parseDigitsAcc_append]
      have hlt : n / 10 < n := Nat.div_lt_self (by omega) (by omega)
      rw [ih (n / 10) hlt a]
      rw [parseDigitsAcc_cons, parseDigitsAcc_nil,
        digitVal_digitChar (n % 10) (Nat.mod_lt _ (by omega))]
      rw [List.length_append, List.length_singleton, pow_succ]
      have hmod : 10 * (n / 10) + n % 10 = n := Nat.div_add_mod n 10
      calc 10 * (a * 10 ^ (natDecChars (n / 10)).length + n / 10) + n % 10
          = a * (10 ^ (natDecChars (n / 10)).length * 10)
              + (10 * (n / 10) + n % 10) := by ring
        _ = a * (10 ^ (natDecChars (n / 10)).length * 10) + n := by rw [hmod]

theorem takeWhile_all {p : Char → Bool} :
    ∀ l : List Char, (∀ c ∈ l, p c = true) → l.takeWhile p = l := by
  intro l h
  induction l with
  | nil => rfl
  | cons c t ih =>
    rw [List.takeWhile_cons, h c (by simp)]
    simp [ih (fun c hc => h c (by simp [hc]))]

theorem parseStreamNat_natDecChars (n : Nat) : parseStreamNat (natDecChars n) = some n := by
  simp only [parseStreamNat]
  rw [takeWhile_all (natDecChars n) (natDecChars_all_digits n)]
  rw [if_neg (natDecChars_ne_nil n)]
  rw [parseDigitsAcc_natDecChars n 0]
  norm_num

theorem digit_not_space {c : Char} (h : isAsciiDigit c = true) : isStreamSpace c = false := by
  rw [isAsciiDigit] at h
  rw [isStreamSpace]
  simp only [decide_eq_true_eq] at h
  have h0 : '0'.toNat ≤ c.toNat := h.1
  simp only [decide_eq_false_iff_not]
  rintro (rfl | rfl | rfl | rfl | rfl | rfl) <;> simp [Char.le_def] at h0

theorem digit_head_cases {c : Char} (h : isAsciiDigit c = true) :
    c ≠ '-' ∧ c ≠ '+' := by
  rw [isAsciiDigit] at h
  simp only [decide_eq_true_eq] at h
  have h0 : '0'.toNat ≤ c.toNat := h.1
  constructor <;> rintro rfl <;> simp [Char.le_def] at h0

theorem dropWhile_not_head {p : Char → Bool} {c : Char} (l : List Char) (h : p c = false) :
    (c :: l).dropWhile p = c :: l := by
  simp [List.dropWhile_cons, h]

theorem parseStreamInt_intToDecString (v : Int) :
    parseStreamInt (intToDecString v) = some v := by
  rw [parseStreamInt, intToDecString]
  by_cases hv : v < 0
  · rw [if_pos hv]
    show parseStreamIntChars (('-' :: natDecChars v.natAbs).dropWhile isStreamSpace) = some v
    rw [dropWhile_not_head _ (by decide)]
    rw [parseStreamIntChars]
    rw [if_pos rfl, parseStreamNat_natDecChars]
    show some (-(v.natAbs : Int)) = some v
    congr 1
    omega
  · rw [if_neg hv]
    show parseStreamIntChars ((natDecChars v.natAbs).dropWhile isStreamSpace) = some v
    obtain ⟨c, t, hct⟩ : ∃ c t, natDecChars v.natAbs = c :: t := by
      cases h : natDecChars v.natAbs with
      | nil => exact absurd h (natDecChars_ne_nil _)
      | cons c t => exact ⟨c, t, rfl⟩
    have hcd : isAsciiDigit c = true := by
      apply natDecChars_all_digits v.natAbs
      rw [hct]; simp
    rw [hct, dropWhile_not_head _ (digit_not_space hcd)]
    rw [parseStreamIntChars]
    rw [if_neg (by simpa using (digit_head_cases hcd).1),
      if_neg (by simpa using (digit_head_cases hcd).2)]
    rw [← hct, parseStreamNat_natDecChars]
    show some ((v.natAbs : Int)) = some v
    congr 1
    omega

/-! ## Lemmas: compact-format escaping -/

theorem string_mk_data (s : String) : (⟨s.data⟩ : String) = s := by
  cases s
  rfl

theorem data_string_mk (l : List Char) : (⟨l⟩ : String).data = l := rfl

theorem unescapeAux_escapeChars : ∀ l : List Char, unescapeAux (escapeChars l) false = .ok l := by
  intro l
  induction l with
  | nil => rfl
  | cons c cs ih =>
    by_cases hc : c = '\\' ∨ c = ';' ∨ c = '='
    · rw [escapeChars, if_pos hc]
      rw [unescapeAux, if_pos rfl, unescapeAux, ih]
      rfl
    · rw [escapeChars, if_neg hc]
      have hc1 : ¬ c = '\\' := fun h => hc (Or.inl h)
      rw [unescapeAux, if_neg hc1, ih]
      rfl

theorem unescape_compact_escape_compact (s : String) :
    unescape_compact (escape_compact s) = .ok s := by
  rw [unescape_compact, escape_compact, data_string_mk, unescapeAux_escapeChars]
  rw [Except.map, string_mk_data]

theorem escapeChars_chars (l : List Char) :
    ∀ c ∈ escapeChars l, c = '\\' ∨ c ∈ l := by
  induction l with
  | nil => intro c hc; cases hc
  | cons a t ih =>
    intro c hc
    by_cases ha : a = '\\' ∨ a = ';' ∨ a = '='
    · rw [escapeChars, if_pos ha] at hc
      simp only [List.mem_cons] at hc
      rcases hc with h | h | h
      · exact Or.inl h
      · exact Or.inr (by simp [h])
      · rcases ih c h with h' | h'
        · exact Or.inl h'
        · exact Or.inr (by simp [h'])
    · rw [escapeChars, if_neg ha] at hc
      simp only [List.mem_cons] at hc
      rcases hc with h | h
      · exact Or.inr (by simp [h])
      · rcases ih c h with h' | h'
        · exact Or.inl h'
        · exact Or.inr (by simp [h'])

/-! ## Lemmas: the compact-string scanner -/

theorem scanSafe_append {l₁ l₂ : List Char} (h₁ : ScanSafe l₁) (h₂ : ScanSafe l₂) :
    ScanSafe (l₁ ++ l₂) := by
  induction h₁ with
  | nil => exact h₂
  | esc c cs _ ih => exact ScanSafe.esc c _ ih
  | chr c cs hc hs _ ih => exact ScanSafe.chr c _ hc hs ih

theorem scanSafe_of_plain : ∀ l : List Char, (∀ c ∈ l, c ≠ '\\' ∧ c ≠ ';') → ScanSafe l := by
  intro l h
  induction l with
  | nil => exact ScanSafe.nil
  | cons c t ih =>
    exact ScanSafe.chr c t (h c (by simp)).1 (h c (by simp)).2
      (ih (fun d hd => h d (by simp [hd])))

theorem scanSafe_escapeChars : ∀ l : List Char, ScanSafe (escapeChars l) := by
  intro l
  induction l with
  | nil => exact ScanSafe.nil
  | cons c t ih =>
    by_cases hc : c = '\\' ∨ c = ';' ∨ c = '='
    · rw [escapeChars, if_pos hc]
      exact ScanSafe.esc c _ ih
    · rw [escapeChars, if_neg hc]
      push_neg at hc
      exact ScanSafe.chr c _ hc.1 hc.2.1 ih

theorem fromCompactLoop_scan {t : List Char} (h : ScanSafe t) :
    ∀ (ps : Registry) (rest token : List Char),
      fromCompactLoop ps (t ++ rest) token false = fromCompactLoop ps rest (token ++ t) false := by
  induction h with
  | nil => intro ps rest token; simp
  | esc c cs _ ih =>
    intro ps rest token
    show fromCompactLoop ps ('\\' :: c :: (cs ++ rest)) token false = _
    rw [fromCompactLoop]
    simp only [if_neg Bool.false_ne_true, if_pos rfl]
    rw [fromCompactLoop]
    simp only [if_pos rfl]
    rw [ih ps rest (token ++ ['\\', c])]
    simp
  | chr c cs hbs hsemi _ ih =>
    intro ps rest token
    show fromCompactLoop ps (c :: (cs ++ rest)) token false = _
    rw [fromCompactLoop]
    simp only [if_neg Bool.false_ne_true, if_neg hbs, if_neg hsemi]
    rw [ih ps rest (token ++ [c])]
    simp

theorem findEqAux_plain_eq (name : List Char) (hname : ∀ c ∈ name, c ≠ '\\' ∧ c ≠ '=') :
    ∀ (w : List Char) (i : Nat), findEqAux (name ++ '=' :: w) i false = some (i + name.length) := by
  induction name with
  | nil =>
    intro w i
    rw [List.nil_append, findEqAux]
    simp
  | cons c t ih =>
    intro w i
    rw [List.cons_append, findEqAux]
    simp only [if_neg Bool.false_ne_true, if_neg (hname c (by simp)).1,
      if_neg (hname c (by simp)).2]
    rw [ih (fun d hd => hname d (by simp [hd])) w (i + 1)]
    simp only [List.length_cons]
    congr 1
    omega

theorem token_take_name (name w : List Char) :
    (name ++ '=' :: w).take name.length = name := List.take_left name ('=' :: w)

theorem token_drop_value (name w : List Char) :
    (name ++ '=' :: w).drop (name.length + 1) = w := by
  have h : name ++ '=' :: w = (name ++ ['=']) ++ w := by simp
  have hlen : (name ++ ['=']).length = name.length + 1 := by simp
  rw [h, ← hlen]
  exact List.drop_left (name ++ ['=']) w

/-! ## Lemmas: registry lookup and update -/

theorem findParam_isSome_iff (ps : Registry) (n : String) :
    (findParam ps n).isSome ↔ n ∈ ps.map Prod.fst := by
  induction ps with
  | nil => simp [findParam]
  | cons e rest ih =>
    rw [findParam]
    by_cases h : e.1 = n
    · simp [h]
    · simp only [if_neg h, ih, List.map_cons, List.mem_cons]
      constructor
      · exact Or.inr
      · rintro (rfl | hm)
        · exact absurd rfl h
        · exact hm

theorem findParam_mem {ps : Registry} {n : String} {p : ParamData}
    (h : findParam ps n = some p) : (n, p) ∈ ps := by
  induction ps with
  | nil => cases h
  | cons e rest ih =>
    obtain ⟨a, q⟩ := e
    rw [findParam] at h
    by_cases he : a = n
    · rw [if_pos he] at h
      cases h
      subst he
      exact List.mem_cons_self _ _
    · rw [if_neg he] at h
      exact List.mem_cons_of_mem _ (ih h)

theorem findParam_updateParam_same {ps : Registry} {n : String}
    (h : (findParam ps n).isSome) (q : ParamData) :
    findParam (updateParam ps n q) n = some q := by
  induction ps with
  | nil => simp [findParam] at h
  | cons e rest ih =>
    rw [updateParam]
    by_cases he : e.1 = n
    · rw [if_pos he, findParam, if_pos he]
    · rw [if_neg he, findParam, if_neg he]
      rw [findParam, if_neg he] at h
      exact ih h

theorem findParam_updateParam_ne {ps : Registry} {n m : String} (hne : m ≠ n) (q : ParamData) :
    findParam (updateParam ps n q) m = findParam ps m := by
  induction ps with
  | nil => rfl
  | cons e rest ih =>
    rw [updateParam]
    by_cases he : e.1 = n
    · rw [if_pos he, findParam, findParam]
      have : ¬ e.1 = m := by rw [he]; exact fun h => hne h.symm
      rw [if_neg this, if_neg this]
    · rw [if_neg he, findParam, findParam]
      by_cases hm : e.1 = m
      · rw [if_pos hm, if_pos hm]
      · rw [if_neg hm, if_neg hm, ih]

theorem map_fst_updateParam (ps : Registry) (n : String) (q : ParamData) :
    (updateParam ps n q).map Prod.fst = ps.map Prod.fst := by
  induction ps with
  | nil => rfl
  | cons e rest ih =>
    rw [updateParam]
    by_cases he : e.1 = n
    · rw [if_pos he]
      simp
    · rw [if_neg he]
      simp [ih]

theorem findParam_append_absent {ps : Registry} {n : String} (h : findParam ps n = none)
    (p : ParamData) : findParam (ps ++ [(n, p)]) n = some p := by
  induction ps with
  | nil => simp [findParam]
  | cons e rest ih =>
    rw [findParam] at h
    rw [List.cons_append, findParam]
    by_cases he : e.1 = n
    · rw [if_pos he] at h
      cases h
    · rw [if_neg he] at h
      rw [if_neg he]
      exact ih h

/-! ## Lemmas: schema preservation -/

theorem from_string_schemaOf {p p' : ParamData} {s : String} (h : p.from_string s = .ok p') :
    p'.schemaOf = p.schemaOf := by
  cases p with
  | pint v d c =>
    rw [ParamData.from_string] at h
    split at h
    · cases h
    · split at h
      · cases h
      · cases h; rfl
  | pbool v d =>
    rw [ParamData.from_string] at h
    split at h
    · cases h; rfl
    · cases h; rfl
    · cases h
  | pstr v d c =>
    rw [ParamData.from_string] at h
    split at h
    · cases h
    · cases h; rfl

theorem set_schemaOf {p p' : ParamData} {v : Value} (h : p.set v = .ok p') :
    p'.schemaOf = p.schemaOf := by
  cases p <;> cases v <;> rw [ParamData.set] at h <;> first
    | (cases h; rfl)
    | (split at h
       · cases h
       · cases h; rfl)
    | cases h

theorem set_currentValue {p p' : ParamData} {v : Value} (h : p.set v = .ok p') :
    p'.currentValue = v := by
  cases p <;> cases v <;> rw [ParamData.set] at h <;> first
    | (cases h; rfl)
    | (split at h
       · cases h
       · cases h; rfl)
    | cases h

theorem updateParam_schemaMap {ps : Registry} {n : String} {p q : ParamData}
    (h : findParam ps n = some p) (hq : q.schemaOf = p.schemaOf) :
    schemaMap (updateParam ps n q) = schemaMap ps := by
  induction ps with
  | nil => rfl
  | cons e rest ih =>
    rw [findParam] at h
    rw [updateParam]
    by_cases he : e.1 = n
    · rw [if_pos he] at h ⊢
      cases h
      rw [schemaMap, schemaMap]
      simp [hq]
    · rw [if_neg he] at h ⊢
      rw [schemaMap, schemaMap] at ih ⊢
      simp only [List.map_cons, List.cons.injEq, true_and]
      exact ih h

theorem flush_token_schemaMap (ps : Registry) (t : List Char) :
    schemaMap (flush_token ps t).1 = schemaMap ps := by
  rw [flush_token]
  by_cases ht : t = []
  · rw [if_pos ht]
  · rw [if_neg ht]
    cases hq : findEqAux t 0 false with
    | none => rfl
    | some i =>
      cases hf : findParam ps ⟨t.take i⟩ with
      | none => simp [hf]
      | some p =>
        cases hu : unescape_compact ⟨t.drop (i + 1)⟩ with
        | error e => simp [hf, hu]
        | ok value =>
          cases hs : p.from_string value with
          | error e => simp [hf, hu, hs]
          | ok p' =>
            simp only [hf, hu, hs]
            exact updateParam_schemaMap hf (from_string_schemaOf hs)

theorem fromCompactLoop_schemaMap :
    ∀ (cs : List Char) (ps : Registry) (token : List Char) (esc : Bool),
      schemaMap (fromCompactLoop ps cs token esc).1 = schemaMap ps := by
  intro cs
  induction cs with
  | nil =>
    intro ps token esc
    rw [fromCompactLoop]
    by_cases he : esc = true
    · rw [if_pos he]
    · rw [if_neg he]
      exact flush_token_schemaMap ps token
  | cons c rest ih =>
    intro ps token esc
    rw [fromCompactLoop]
    by_cases he : esc = true
    · rw [if_pos he]
      exact ih ps (token ++ ['\\', c]) false
    · rw [if_neg he]
      by_cases hbs : c = '\\'
      · rw [if_pos hbs]
        exact ih ps token true
      · rw [if_neg hbs]
        by_cases hsemi : c = ';'
        · rw [if_pos hsemi]
          cases hf : flush_token ps token with
          | mk ps' err =>
            cases err with
            | none =>
              have h1 : schemaMap ps' = schemaMap ps := by
                have := flush_token_schemaMap ps token
                rw [hf] at this
                exact this
              simp only []
              rw [ih ps' [] false, h1]
            | some e =>
              have h1 : schemaMap ps' = schemaMap ps := by
                have := flush_token_schemaMap ps token
                rw [hf] at this
                exact this
              simp only [h1]
        · rw [if_neg hsemi]
          exact ih ps (token ++ [c]) false

theorem from_compact_string_schemaMap (ps : Registry) (s : String) :
    schemaMap (from_compact_string ps s).1 = schemaMap ps := by
  rw [from_compact_string]
  exact fromCompactLoop_schemaMap s.data ps [] false

theorem fromJsonLoop_schemaMap :
    ∀ (doc : List (String × JValue)) (ps : Registry),
      schemaMap (fromJsonLoop ps doc).1 = schemaMap ps := by
  intro doc
  induction doc with
  | nil => intro ps; rfl
  | cons e rest ih =>
    intro ps
    obtain ⟨name, v⟩ := e
    rw [fromJsonLoop]
    cases hf : findParam ps name with
    | none => rfl
    | some p =>
      cases hj : jsonValueString p.getType name v with
      | error e => simp [hf, hj]
      | ok value =>
        cases hs : p.from_string value with
        | error e => simp [hf, hj, hs]
        | ok p' =>
          simp only [hf, hj, hs]
          rw [ih (updateParam ps name p')]
          exact updateParam_schemaMap hf (from_string_schemaOf hs)

theorem from_json_schemaMap (ps : Registry) (doc : List (String × JValue)) :
    schemaMap (from_json ps doc).1 = schemaMap ps := fromJsonLoop_schemaMap doc ps

/-! ## Lemmas: one parameter's value survives rendering and re-parsing -/

theorem validate_int_of_validOK {v d : Int} {c : ConstraintsInt}
    (hv : (ParamData.pint v d c).validOK = true) : validate_constraints_int c v = none := by
  rw [ParamData.validOK] at hv
  exact Option.isNone_iff_eq_none.mp hv

theorem validate_string_of_validOK {v d : String} {c : ConstraintsString}
    (hv : (ParamData.pstr v d c).validOK = true) : validate_constraints_string c v = none := by
  rw [ParamData.validOK] at hv
  exact Option.isNone_iff_eq_none.mp hv

theorem parseStreamInt_one : parseStreamInt "1" = some 1 := by decide

theorem parseStreamInt_zero : parseStreamInt "0" = some 0 := by decide

theorem from_string_to_string {p q : ParamData} (hs : q.schemaOf = p.schemaOf)
    (hv : p.validOK = true) :
    ∃ r, q.from_string p.to_string = .ok r ∧ r.schemaOf = p.schemaOf ∧
      r.currentValue = p.currentValue := by
  cases p with
  | pint v d c =>
    cases q with
    | pint v' d' c' =>
      rw [ParamData.schemaOf, ParamData.schemaOf] at hs
      injection hs with h1 h2 h3
      subst h2; subst h3
      refine ⟨.pint v d' c', ?_, rfl, rfl⟩
      simp only [ParamData.to_string, ParamData.from_string, parseStreamInt_intToDecString,
        validate_int_of_validOK hv]
    | pbool v' d' => simp [ParamData.schemaOf] at hs
    | pstr v' d' c' => simp [ParamData.schemaOf] at hs
  | pbool v d =>
    cases q with
    | pint v' d' c' => simp [ParamData.schemaOf] at hs
    | pbool v' d' =>
      rw [ParamData.schemaOf, ParamData.schemaOf] at hs
      injection hs with h1 h2
      subst h2
      refine ⟨.pbool v d', ?_, rfl, rfl⟩
      cases v with
      | true =>
        rw [ParamData.to_string, if_pos rfl, ParamData.from_string, parseStreamInt_one]
        rfl
      | false =>
        rw [ParamData.to_string, if_neg Bool.false_ne_true, ParamData.from_string,
          parseStreamInt_zero]
        rfl
    | pstr v' d' c' => simp [ParamData.schemaOf] at hs
  | pstr v d c =>
    cases q with
    | pint v' d' c' => simp [ParamData.schemaOf] at hs
    | pbool v' d' => simp [ParamData.schemaOf] at hs
    | pstr v' d' c' =>
      rw [ParamData.schemaOf, ParamData.schemaOf] at hs
      injection hs with h1 h2 h3
      subst h2; subst h3
      refine ⟨.pstr v d' c', ?_, rfl, rfl⟩
      simp only [ParamData.to_string, ParamData.from_string,
        validate_string_of_validOK hv]

theorem toJsonValue_pint (v d : Int) (c : ConstraintsInt) :
    (ParamData.pint v d c).toJsonValue = .jint v := by
  rw [ParamData.toJsonValue]
  show JValue.jint ((parseStreamInt (intToDecString v)).getD 0) = .jint v
  rw [parseStreamInt_intToDecString]
  rfl

theorem toJsonValue_pbool (v d : Bool) :
    (ParamData.pbool v d).toJsonValue = .jbool v := by
  cases v <;> rfl

theorem toJsonValue_pstr (v d : String) (c : ConstraintsString) :
    (ParamData.pstr v d c).toJsonValue = .jstr v := rfl

theorem json_from_to {p q : ParamData} (hs : q.schemaOf = p.schemaOf)
    (hv : p.validOK = true) (n : String) :
    ∃ s r, jsonValueString q.getType n p.toJsonValue = .ok s ∧ q.from_string s = .ok r ∧
      r.schemaOf = p.schemaOf ∧ r.currentValue = p.currentValue := by
  cases p with
  | pint v d c =>
    cases q with
    | pint v' d' c' =>
      rw [ParamData.schemaOf, ParamData.schemaOf] at hs
      injection hs with h1 h2 h3
      subst h2; subst h3
      refine ⟨intToDecString v, .pint v d' c', ?_, ?_, rfl, rfl⟩
      · rw [toJsonValue_pint]
        rfl
      · simp only [ParamData.from_string, parseStreamInt_intToDecString,
          validate_int_of_validOK hv]
    | pbool v' d' => simp [ParamData.schemaOf] at hs
    | pstr v' d' c' => simp [ParamData.schemaOf] at hs
  | pbool v d =>
    cases q with
    | pint v' d' c' => simp [ParamData.schemaOf] at hs
    | pbool v' d' =>
      rw [ParamData.schemaOf, ParamData.schemaOf] at hs
      injection hs with h1 h2
      subst h2
      cases v with
      | true =>
        refine ⟨"1", .pbool true d', ?_, ?_, rfl, rfl⟩
        · rw [toJsonValue_pbool]
          rfl
        · rw [ParamData.from_string, parseStreamInt_one]
          rfl
      | false =>
        refine ⟨"0", .pbool false d', ?_, ?_, rfl, rfl⟩
        · rw [toJsonValue_pbool]
          rfl
        · rw [ParamData.from_string, parseStreamInt_zero]
          rfl
    | pstr v' d' c' => simp [ParamData.schemaOf] at hs
  | pstr v d c =>
    cases q with
    | pint v' d' c' => simp [ParamData.schemaOf] at hs
    | pbool v' d' => simp [ParamData.schemaOf] at hs
    | pstr v' d' c' =>
      rw [ParamData.schemaOf, ParamData.schemaOf] at hs
      injection hs with h1 h2 h3
      subst h2; subst h3
      refine ⟨v, .pstr v d' c', rfl, ?_, rfl, rfl⟩
      simp only [ParamData.from_string, validate_string_of_validOK hv]

/-! ## Lemmas: decoding an encoded registry -/

theorem goodName_chars {n : String} (h : goodName n = true) :
    ∀ c ∈ n.data, c ≠ '\\' ∧ c ≠ ';' ∧ c ≠ '=' := by
  rw [goodName, List.all_eq_true] at h
  intro c hc
  have hcp := h c hc
  simp only [decide_eq_true_eq] at hcp
  push_neg at hcp
  exact hcp

theorem scanSafe_compactPair {n : String} (h : goodName n = true) (p : ParamData) :
    ScanSafe (compactPair n p) := by
  rw [compactPair]
  apply scanSafe_append
  · apply scanSafe_of_plain
    intro c hc
    exact ⟨(goodName_chars h c hc).1, (goodName_chars h c hc).2.1⟩
  · exact ScanSafe.chr '=' _ (by decide) (by decide) (scanSafe_escapeChars _)

theorem joinSemi_cons₂ (t u : List Char) (us : List (List Char)) :
    joinSemi (t :: u :: us) = t ++ ';' :: joinSemi (u :: us) := rfl

theorem flush_token_pair {r : Registry} {n : String} {q : ParamData}
    (hn : goodName n = true) (hfind : findParam r n = some q) (p : ParamData)
    (hs : q.schemaOf = p.schemaOf) (hv : p.validOK = true) :
    ∃ q', flush_token r (compactPair n p) = (updateParam r n q', none) ∧
      q'.schemaOf = p.schemaOf ∧ q'.currentValue = p.currentValue := by
  obtain ⟨q', hq1, hq2, hq3⟩ := from_string_to_string hs hv
  refine ⟨q', ?_, hq2, hq3⟩
  rw [flush_token, compactPair]
  have hne : n.data ++ '=' :: escapeChars p.to_string.data ≠ [] := by
    simp
  rw [if_neg hne]
  have heq : findEqAux (n.data ++ '=' :: escapeChars p.to_string.data) 0 false
      = some n.data.length := by
    have := findEqAux_plain_eq n.data
      (fun c hc => ⟨(goodName_chars hn c hc).1, (goodName_chars hn c hc).2.2⟩)
      (escapeChars p.to_string.data) 0
    simpa using this
  have hu : unescape_compact ⟨escapeChars p.to_string.data⟩ = .ok p.to_string :=
    unescape_compact_escape_compact p.to_string
  rw [heq]
  simp only [token_take_name, token_drop_value, string_mk_data, hfind, hu, hq1]

theorem findParam_schemaMap {ps : Registry} :
    ∀ {qs : Registry}, schemaMap ps = schemaMap qs → ∀ n : String,
      (findParam ps n).map ParamData.schemaOf = (findParam qs n).map ParamData.schemaOf := by
  induction ps with
  | nil =>
    intro qs h n
    cases qs with
    | nil => rfl
    | cons f m => cases h
  | cons e l ih =>
    intro qs h n
    cases qs with
    | nil => cases h
    | cons f m =>
      rw [schemaMap, schemaMap] at h
      simp only [List.map_cons, List.cons.injEq, Prod.mk.injEq] at h
      obtain ⟨⟨h1, h2⟩, h3⟩ := h
      rw [findParam, findParam]
      by_cases hen : e.1 = n
      · rw [if_pos hen, if_pos (h1 ▸ hen)]
        simp [h2]
      · rw [if_neg hen, if_neg (fun hc => hen (h1 ▸ hc))]
        exact ih h3 n

theorem findParam_of_schemaMap {ps qs : Registry} {n : String} {p : ParamData}
    (h : schemaMap qs = schemaMap ps) (hp : findParam ps n = some p) :
    ∃ q, findParam qs n = some q ∧ q.schemaOf = p.schemaOf := by
  have := findParam_schemaMap h n
  rw [hp] at this
  cases hq : findParam qs n with
  | none => rw [hq] at this; cases this
  | some q =>
    rw [hq] at this
    refine ⟨q, rfl, ?_⟩
    simpa using this

theorem decode_pairs (r₁ : Registry) (hval : ∀ e ∈ r₁, e.2.validOK = true) :
    ∀ (ns : List String) (r₂ : Registry),
      (∀ n ∈ ns, (findParam r₁ n).isSome) →
      (∀ n ∈ ns, goodName n = true) →
      ns.Nodup →
      schemaMap r₂ = schemaMap r₁ →
      ∃ r₂', fromCompactLoop r₂ (joinSemi (ns.map (pairOf r₁))) [] false = (r₂', none)
        ∧ schemaMap r₂' = schemaMap r₁
        ∧ (∀ n ∈ ns, (findParam r₂' n).map ParamData.currentValue
            = (findParam r₁ n).map ParamData.currentValue)
        ∧ (∀ m, m ∉ ns → findParam r₂' m = findParam r₂ m) := by
  intro ns
  induction ns with
  | nil =>
    intro r₂ _ _ _ hschema
    exact ⟨r₂, rfl, hschema, by simp, fun m _ => rfl⟩
  | cons n ns ih =>
    intro r₂ hin hgood hnd hschema
    obtain ⟨p, hp⟩ := Option.isSome_iff_exists.mp (hin n (by simp))
    obtain ⟨q, hq, hqs⟩ := findParam_of_schemaMap hschema hp
    have hpv : p.validOK = true := hval (n, p) (findParam_mem hp)
    obtain ⟨q', hfl, hqs', hqv⟩ := flush_token_pair (hgood n (by simp)) hq p hqs hpv
    have hupd : schemaMap (updateParam r₂ n q') = schemaMap r₁ := by
      rw [updateParam_schemaMap hq (hqs'.trans hqs.symm)]
      exact hschema
    have hpair : pairOf r₁ n = compactPair n p := by rw [pairOf, hp]
    cases ns with
    | nil =>
      refine ⟨updateParam r₂ n q', ?_, hupd, ?_, ?_⟩
      · show fromCompactLoop r₂ (joinSemi [pairOf r₁ n]) [] false = _
        rw [joinSemi, hpair]
        have hscan := fromCompactLoop_scan (scanSafe_compactPair (hgood n (by simp)) p)
          r₂ [] []
        rw [List.append_nil] at hscan
        rw [hscan]
        rw [fromCompactLoop]
        rw [if_neg Bool.false_ne_true, List.nil_append]
        exact hfl
      · intro n' hn'
        simp only [List.mem_singleton] at hn'
        subst hn'
        rw [findParam_updateParam_same (by rw [hq]; rfl) q', hp]
        simp [hqv]
      · intro m hm
        simp only [List.mem_singleton] at hm
        exact findParam_updateParam_ne hm q'
    | cons n₂ rest =>
      have hns : ∀ x ∈ n₂ :: rest, (findParam r₁ x).isSome :=
        fun x hx => hin x (by simp [hx])
      have hgs : ∀ x ∈ n₂ :: rest, goodName x = true :=
        fun x hx => hgood x (by simp [hx])
      have hnds : (n₂ :: rest).Nodup := hnd.of_cons
      obtain ⟨r₂', hloop, hsch', hvals, hframe⟩ :=
        ih (updateParam r₂ n q') hns hgs hnds hupd
      have hnmem : n ∉ n₂ :: rest := (List.nodup_cons.mp hnd).1
      refine ⟨r₂', ?_, hsch', ?_, ?_⟩
      · show fromCompactLoop r₂
          (joinSemi (pairOf r₁ n :: pairOf r₁ n₂ :: rest.map (pairOf r₁))) [] false = _
        rw [joinSemi_cons₂, hpair]
        have hscan := fromCompactLoop_scan (scanSafe_compactPair (hgood n (by simp)) p)
          r₂ (';' :: joinSemi (pairOf r₁ n₂ :: rest.map (pairOf r₁))) []
        rw [hscan, List.nil_append]
        rw [fromCompactLoop]
        rw [if_neg Bool.false_ne_true, if_neg (by decide : ¬(';' : Char) = '\\'), if_pos rfl]
        rw [hfl]
        exact hloop
      · intro n' hn'
        rcases List.mem_cons.mp hn' with rfl | hn'
        · rw [hframe n' hnmem, findParam_updateParam_same (by rw [hq]; rfl) q', hp]
          simp [hqv]
        · exact hvals n' hn'
      · intro m hm
        rw [hframe m (fun hc => hm (by simp [hc]))]
        exact findParam_updateParam_ne (fun hc => hm (by simp [hc])) q'

theorem filterMap_compactPair (ps : Registry) :
    ∀ ns : List String, (∀ n ∈ ns, (findParam ps n).isSome) →
      ns.filterMap (fun n => (findParam ps n).map (fun p => compactPair n p))
        = ns.map (pairOf ps) := by
  intro ns h
  induction ns with
  | nil => rfl
  | cons n rest ih =>
    obtain ⟨p, hp⟩ := Option.isSome_iff_exists.mp (h n (by simp))
    rw [List.filterMap_cons, List.map_cons, hp]
    have hpair : pairOf ps n = compactPair n p := by rw [pairOf, hp]
    rw [ih (fun x hx => h x (by simp [hx]))]
    simp [hpair]

theorem char_toNat_inj {a b : Char} (h : a.toNat = b.toNat) : a = b := by
  have hofn := Char.ofNat_toNat a
  rw [← hofn, h, Char.ofNat_toNat]

theorem charListLe_total : ∀ a b : List Char, charListLe a b = true ∨ charListLe b a = true := by
  intro a
  induction a with
  | nil => intro b; left; rfl
  | cons x as ih =>
    intro b
    cases b with
    | nil => right; rfl
    | cons y bs =>
      rw [charListLe, charListLe]
      by_cases hxy : x.toNat < y.toNat
      · left; rw [if_pos hxy]
      · by_cases hyx : y.toNat < x.toNat
        · right; rw [if_pos hyx]
        · rw [if_neg hxy, if_neg hyx, if_neg hyx, if_neg hxy]
          exact ih bs

theorem charListLe_trans :
    ∀ a b c : List Char, charListLe a b = true → charListLe b c = true →
      charListLe a c = true := by
  intro a
  induction a with
  | nil => intro b c _ _; rfl
  | cons x as ih =>
    intro b c hab hbc
    cases b with
    | nil => rw [charListLe] at hab; cases hab
    | cons y bs =>
      cases c with
      | nil => rw [charListLe] at hbc; cases hbc
      | cons z cs =>
        rw [charListLe] at hab hbc ⊢
        by_cases hxy : x.toNat < y.toNat
        · by_cases hyz : y.toNat < z.toNat
          · rw [if_pos (by omega : x.toNat < z.toNat)]
          · by_cases hzy : z.toNat < y.toNat
            · rw [if_neg hyz, if_pos hzy] at hbc
              cases hbc
            · have : y = z := char_toNat_inj (by omega)
              subst this
              rw [if_pos hxy]
        · by_cases hyx : y.toNat < x.toNat
          · rw [if_neg hxy, if_pos hyx] at hab
            cases hab
          · have hxyeq : x = y := char_toNat_inj (by omega)
            subst hxyeq
            rw [if_neg hxy, if_neg hyx] at hab
            by_cases hyz : x.toNat < z.toNat
            · rw [if_pos hyz]
            · by_cases hzy : z.toNat < x.toNat
              · rw [if_neg hyz, if_pos hzy] at hbc
                cases hbc
              · rw [if_neg hyz, if_neg hzy] at hbc ⊢
                exact ih bs cs hab hbc

theorem charListLe_antisymm :
    ∀ a b : List Char, charListLe a b = true → charListLe b a = true → a = b := by
  intro a
  induction a with
  | nil =>
    intro b _ hba
    cases b with
    | nil => rfl
    | cons y bs => rw [charListLe] at hba; cases hba
  | cons x as ih =>
    intro b hab hba
    cases b with
    | nil => rw [charListLe] at hab; cases hab
    | cons y bs =>
      rw [charListLe] at hab hba
      by_cases hxy : x.toNat < y.toNat
      · rw [if_neg (by omega : ¬ y.toNat < x.toNat), if_pos hxy] at hba
        cases hba
      · by_cases hyx : y.toNat < x.toNat
        · rw [if_neg hxy, if_pos hyx] at hab
          cases hab
        · have hxyeq : x = y := char_toNat_inj (by omega)
          subst hxyeq
          rw [if_neg hxy, if_neg hyx] at hab hba
          rw [ih bs hab hba]

theorem strLe_total : ∀ a b : String, strLe a b = true ∨ strLe b a = true :=
  fun a b => charListLe_total a.data b.data

theorem strLe_trans : ∀ a b c : String, strLe a b = true → strLe b c = true →
    strLe a c = true :=
  fun a b c => charListLe_trans a.data b.data c.data

theorem strLe_antisymm : ∀ a b : String, strLe a b = true → strLe b a = true → a = b := by
  intro a b hab hba
  have := charListLe_antisymm a.data b.data hab hba
  calc a = (⟨a.data⟩ : String) := (string_mk_data a).symm
    _ = (⟨b.data⟩ : String) := by rw [this]
    _ = b := string_mk_data b

theorem sortedNames_perm (ps : Registry) : (sortedNames ps).Perm (ps.map Prod.fst) :=
  List.perm_insertionSort _ _

theorem sortedNames_sorted (ps : Registry) :
    (sortedNames ps).Sorted (fun a b : String => strLe a b = true) := by
  haveI : IsTotal String (fun a b : String => strLe a b = true) := ⟨strLe_total⟩
  haveI : IsTrans String (fun a b : String => strLe a b = true) := ⟨strLe_trans⟩
  exact List.sorted_insertionSort _ _

theorem sortedNames_isSome {ps : Registry} :
    ∀ n ∈ sortedNames ps, (findParam ps n).isSome := by
  intro n hn
  rw [findParam_isSome_iff]
  exact (sortedNames_perm ps).mem_iff.mp hn

theorem to_compact_string_data (ps : Registry) :
    (to_compact_string ps).data = joinSemi ((sortedNames ps).map (pairOf ps)) := by
  rw [to_compact_string, data_string_mk, filterMap_compactPair ps _ sortedNames_isSome]

theorem mem_sortedNames_of_findParam {ps : Registry} {n : String} {p : ParamData}
    (h : findParam ps n = some p) : n ∈ sortedNames ps := by
  rw [(sortedNames_perm ps).mem_iff]
  rw [← findParam_isSome_iff, h]
  rfl

theorem compact_roundtrip_aux (r₁ r₂ : Registry)
    (hnd : (r₁.map Prod.fst).Nodup)
    (hschema : schemaMap r₂ = schemaMap r₁)
    (hval : ∀ e ∈ r₁, e.2.validOK = true)
    (hnames : ∀ e ∈ r₁, goodName e.1 = true) :
    ∃ r₂', from_compact_string r₂ (to_compact_string r₁) = (r₂', none)
      ∧ ∀ n p, findParam r₁ n = some p →
          ∃ q, findParam r₂' n = some q ∧ q.currentValue = p.currentValue := by
  have hgood : ∀ n ∈ sortedNames r₁, goodName n = true := by
    intro n hn
    have hmem : n ∈ r₁.map Prod.fst := (sortedNames_perm r₁).mem_iff.mp hn
    obtain ⟨e, he, rfl⟩ := List.mem_map.mp hmem
    exact hnames e he
  have hndup : (sortedNames r₁).Nodup := ((sortedNames_perm r₁).nodup_iff).mpr hnd
  obtain ⟨r₂', hloop, _, hvals, _⟩ :=
    decode_pairs r₁ hval (sortedNames r₁) r₂ sortedNames_isSome hgood hndup hschema
  refine ⟨r₂', ?_, ?_⟩
  · rw [from_compact_string, to_compact_string_data r₁]
    exact hloop
  · intro n p hp
    have hn : n ∈ sortedNames r₁ := mem_sortedNames_of_findParam hp
    have hv := hvals n hn
    rw [hp] at hv
    cases hq : findParam r₂' n with
    | none => rw [hq] at hv; cases hv
    | some q =>
      rw [hq] at hv
      exact ⟨q, rfl, by simpa using hv⟩

theorem json_decode_pairs (r₁ : Registry) (hval : ∀ e ∈ r₁, e.2.validOK = true) :
    ∀ (ns : List String) (r₂ : Registry),
      (∀ n ∈ ns, (findParam r₁ n).isSome) →
      ns.Nodup →
      schemaMap r₂ = schemaMap r₁ →
      ∃ r₂', fromJsonLoop r₂ (ns.map (jsonPairOf r₁)) = (r₂', none)
        ∧ schemaMap r₂' = schemaMap r₁
        ∧ (∀ n ∈ ns, (findParam r₂' n).map ParamData.currentValue
            = (findParam r₁ n).map ParamData.currentValue)
        ∧ (∀ m, m ∉ ns → findParam r₂' m = findParam r₂ m) := by
  intro ns
  induction ns with
  | nil =>
    intro r₂ _ _ hschema
    exact ⟨r₂, rfl, hschema, by simp, fun m _ => rfl⟩
  | cons n ns ih =>
    intro r₂ hin hnd hschema
    obtain ⟨p, hp⟩ := Option.isSome_iff_exists.mp (hin n (by simp))
    obtain ⟨q, hq, hqs⟩ := findParam_of_schemaMap hschema hp
    have hpv : p.validOK = true := hval (n, p) (findParam_mem hp)
    obtain ⟨s, q', hjs, hfs, hqs', hqv⟩ := json_from_to hqs hpv n
    have hupd : schemaMap (updateParam r₂ n q') = schemaMap r₁ := by
      rw [updateParam_schemaMap hq (hqs'.trans hqs.symm)]
      exact hschema
    have hns : ∀ x ∈ ns, (findParam r₁ x).isSome := fun x hx => hin x (by simp [hx])
    have hnds : ns.Nodup := hnd.of_cons
    obtain ⟨r₂', hloop, hsch', hvals, hframe⟩ := ih (updateParam r₂ n q') hns hnds hupd
    have hnmem : n ∉ ns := (List.nodup_cons.mp hnd).1
    refine ⟨r₂', ?_, hsch', ?_, ?_⟩
    · show fromJsonLoop r₂ (jsonPairOf r₁ n :: ns.map (jsonPairOf r₁)) = _
      have hpair : jsonPairOf r₁ n = (n, p.toJsonValue) := by rw [jsonPairOf, hp]
      rw [hpair, fromJsonLoop]
      simp only [hq, hjs, hfs]
      exact hloop
    · intro n' hn'
      rcases List.mem_cons.mp hn' with rfl | hn'
      · rw [hframe n' hnmem, findParam_updateParam_same (by rw [hq]; rfl) q', hp]
        simp [hqv]
      · exact hvals n' hn'
    · intro m hm
      rw [hframe m (fun hc => hm (by simp [hc]))]
      exact findParam_updateParam_ne (fun hc => hm (by simp [hc])) q'

theorem filterMap_jsonPair (ps : Registry) :
    ∀ ns : List String, (∀ n ∈ ns, (findParam ps n).isSome) →
      ns.filterMap (fun n => (findParam ps n).map (fun p => (n, p.toJsonValue)))
        = ns.map (jsonPairOf ps) := by
  intro ns h
  induction ns with
  | nil => rfl
  | cons n rest ih =>
    obtain ⟨p, hp⟩ := Option.isSome_iff_exists.mp (h n (by simp))
    rw [List.filterMap_cons, List.map_cons, hp]
    have hpair : jsonPairOf ps n = (n, p.toJsonValue) := by rw [jsonPairOf, hp]
    rw [ih (fun x hx => h x (by simp [hx]))]
    simp [hpair]

theorem to_json_eq (ps : Registry) : to_json ps = (sortedNames ps).map (jsonPairOf ps) := by
  rw [to_json, filterMap_jsonPair ps _ sortedNames_isSome]

theorem json_roundtrip_aux (r₁ r₂ : Registry)
    (hnd : (r₁.map Prod.fst).Nodup)
    (hschema : schemaMap r₂ = schemaMap r₁)
    (hval : ∀ e ∈ r₁, e.2.validOK = true) :
    ∃ r₂', from_json r₂ (to_json r₁) = (r₂', none)
      ∧ ∀ n p, findParam r₁ n = some p →
          ∃ q, findParam r₂' n = some q ∧ q.currentValue = p.currentValue := by
  have hndup : (sortedNames r₁).Nodup := ((sortedNames_perm r₁).nodup_iff).mpr hnd
  obtain ⟨r₂', hloop, _, hvals, _⟩ :=
    json_decode_pairs r₁ hval (sortedNames r₁) r₂ sortedNames_isSome hndup hschema
  refine ⟨r₂', ?_, ?_⟩
  · rw [from_json, to_json_eq r₁]
    exact hloop
  · intro n p hp
    have hn : n ∈ sortedNames r₁ := mem_sortedNames_of_findParam hp
    have hv := hvals n hn
    rw [hp] at hv
    cases hq : findParam r₂' n with
    | none => rw [hq] at hv; cases hv
    | some q =>
      rw [hq] at hv
      exact ⟨q, rfl, by simpa using hv⟩

/-! ## Lemmas: determinism of the compact encoding -/

theorem findParam_perm {ps qs : Registry} (hperm : ps.Perm qs) :
    (ps.map Prod.fst).Nodup → ∀ n, findParam ps n = findParam qs n := by
  induction hperm with
  | nil => intro _ n; rfl
  | cons e h ih =>
    intro hnd n
    rw [findParam, findParam]
    by_cases he : e.1 = n
    · rw [if_pos he, if_pos he]
    · rw [if_neg he, if_neg he]
      exact ih ((List.nodup_cons.mp (by simpa using hnd)).2) n
  | swap x y l =>
    intro hnd n
    simp only [List.map_cons, List.nodup_cons, List.mem_cons] at hnd
    rw [findParam, findParam, findParam, findParam]
    by_cases hy : y.1 = n
    · rw [if_pos hy]
      by_cases hx : x.1 = n
      · exact absurd (hx.trans hy.symm).symm (fun hc => hnd.1 (Or.inl hc))
      · rw [if_neg hx, if_pos hy]
    · rw [if_neg hy]
      by_cases hx : x.1 = n
      · rw [if_pos hx, if_pos hx]
      · rw [if_neg hx, if_neg hx, if_neg hy]
  | trans h₁ h₂ ih₁ ih₂ =>
    intro hnd n
    rw [ih₁ hnd n]
    exact ih₂ (((h₁.map Prod.fst).nodup_iff).mp hnd) n

theorem sortedNames_perm_eq {ps qs : Registry} (hperm : ps.Perm qs) :
    sortedNames ps = sortedNames qs := by
  haveI : IsAntisymm String (fun a b : String => strLe a b = true) := ⟨strLe_antisymm⟩
  apply List.eq_of_perm_of_sorted _ (sortedNames_sorted ps) (sortedNames_sorted qs)
  exact ((sortedNames_perm ps).trans (hperm.map Prod.fst)).trans (sortedNames_perm qs).symm

theorem to_compact_string_perm {ps qs : Registry} (hperm : ps.Perm qs)
    (hnd : (ps.map Prod.fst).Nodup) : to_compact_string ps = to_compact_string qs := by
  have hfp : findParam ps = findParam qs := funext (findParam_perm hperm hnd)
  rw [to_compact_string, to_compact_string, sortedNames_perm_eq hperm, hfp]

/-! ## Lemmas: strict unknown-name rejection -/

theorem schemaMap_fst (ps : Registry) : (schemaMap ps).map Prod.fst = ps.map Prod.fst := by
  rw [schemaMap, List.map_map]
  rfl

theorem flush_token_names (ps : Registry) (t : List Char) :
    (flush_token ps t).1.map Prod.fst = ps.map Prod.fst := by
  have h := flush_token_schemaMap ps t
  calc (flush_token ps t).1.map Prod.fst
      = (schemaMap (flush_token ps t).1).map Prod.fst := (schemaMap_fst _).symm
    _ = (schemaMap ps).map Prod.fst := by rw [h]
    _ = ps.map Prod.fst := schemaMap_fst ps

theorem flush_success_mention {ps ps' : Registry} {t : List Char}
    (h : flush_token ps t = (ps', none)) (ht : t ≠ []) :
    ∀ i, findEqAux t 0 false = some i → ((⟨t.take i⟩ : String) ∈ ps.map Prod.fst) := by
  intro i hi
  rw [flush_token, if_neg ht, hi] at h
  cases hf : findParam ps ⟨t.take i⟩ with
  | none =>
    simp only [hf] at h
    simp at h
  | some p =>
    rw [← findParam_isSome_iff, hf]
    rfl

theorem loop_success_mentions :
    ∀ (cs : List Char) (ps r' : Registry) (token : List Char) (esc : Bool),
      fromCompactLoop ps cs token esc = (r', none) →
      ∀ t ∈ splitAux cs token esc, t ≠ [] →
        ∀ i, findEqAux t 0 false = some i → ((⟨t.take i⟩ : String) ∈ ps.map Prod.fst) := by
  intro cs
  induction cs with
  | nil =>
    intro ps r' token esc h t htmem htne i hi
    rw [fromCompactLoop] at h
    rw [splitAux] at htmem
    simp only [List.mem_singleton] at htmem
    subst htmem
    by_cases he : esc = true
    · rw [if_pos he] at h
      simp at h
    · rw [if_neg he] at h
      exact flush_success_mention h htne i hi
  | cons c rest ih =>
    intro ps r' token esc h t htmem htne i hi
    rw [fromCompactLoop] at h
    rw [splitAux] at htmem
    by_cases he : esc = true
    · rw [if_pos he] at h htmem
      exact ih ps r' (token ++ ['\\', c]) false h t htmem htne i hi
    · rw [if_neg he] at h htmem
      by_cases hbs : c = '\\'
      · rw [if_pos hbs] at h htmem
        exact ih ps r' token true h t htmem htne i hi
      · rw [if_neg hbs] at h htmem
        by_cases hsemi : c = ';'
        · rw [if_pos hsemi] at h htmem
          cases hf : flush_token ps token with
          | mk ps₁ err =>
            cases err with
            | some e =>
              rw [hf] at h
              simp at h
            | none =>
              rw [hf] at h
              have h' : fromCompactLoop ps₁ rest [] false = (r', none) := h
              rcases List.mem_cons.mp htmem with rfl | hmem
              · exact flush_success_mention hf htne i hi
              · have hres := ih ps₁ r' [] false h' t hmem htne i hi
                have hnames : ps₁.map Prod.fst = ps.map Prod.fst := by
                  have := flush_token_names ps token
                  rw [hf] at this
                  exact this
                rw [hnames] at hres
                exact hres
        · rw [if_neg hsemi] at h htmem
          exact ih ps r' (token ++ [c]) false h t htmem htne i hi

theorem from_compact_success_mentions {ps r' : Registry} {s : String}
    (h : from_compact_string ps s = (r', none)) :
    ∀ n ∈ compactMentions s, (findParam ps n).isSome := by
  intro n hn
  rw [compactMentions, List.mem_filterMap] at hn
  obtain ⟨t, ht, hval⟩ := hn
  by_cases hte : t = []
  · rw [if_pos hte] at hval
    cases hval
  · rw [if_neg hte] at hval
    rw [Option.map_eq_some'] at hval
    obtain ⟨i, hi, rfl⟩ := hval
    rw [findParam_isSome_iff]
    exact loop_success_mentions s.data ps r' [] false h t ht hte i hi

theorem from_json_success_known {ps r' : Registry} :
    ∀ doc : List (String × JValue), fromJsonLoop ps doc = (r', none) →
      ∀ e ∈ doc, e.1 ∈ ps.map Prod.fst := by
  intro doc
  induction doc generalizing ps with
  | nil => intro _ e he; cases he
  | cons d rest ih =>
    intro h e he
    obtain ⟨name, v⟩ := d
    rw [fromJsonLoop] at h
    cases hf : findParam ps name with
    | none =>
      simp only [hf] at h
      simp at h
    | some p =>
      simp only [hf] at h
      rcases List.mem_cons.mp he with rfl | hmem
      · rw [← findParam_isSome_iff, hf]
        rfl
      · cases hj : jsonValueString p.getType name v with
        | error msg => simp only [hj] at h; simp at h
        | ok value =>
          simp only [hj] at h
          cases hs : p.from_string value with
          | error msg => simp only [hs] at h; simp at h
          | ok p' =>
            simp only [hs] at h
            have hres := ih h e hmem
            rw [map_fst_updateParam] at hres
            exact hres

/-! ## Lemmas: single-token compact inputs -/

theorem data_append (a b : String) : (a ++ b).data = a.data ++ b.data := rfl

theorem unescapeAux_plain : ∀ l : List Char, (∀ c ∈ l, c ≠ '\\') → unescapeAux l false = .ok l := by
  intro l h
  induction l with
  | nil => rfl
  | cons c cs ih =>
    rw [unescapeAux, if_neg (h c (by simp))]
    rw [ih (fun d hd => h d (by simp [hd]))]
    rfl

theorem scanSafe_token {n v : String} (hn : goodName n = true) (hv : goodName v = true) :
    ScanSafe (n.data ++ '=' :: v.data) := by
  apply scanSafe_append
  · exact scanSafe_of_plain _
      (fun c hc => ⟨(goodName_chars hn c hc).1, (goodName_chars hn c hc).2.1⟩)
  · exact ScanSafe.chr '=' _ (by decide) (by decide)
      (scanSafe_of_plain _
        (fun c hc => ⟨(goodName_chars hv c hc).1, (goodName_chars hv c hc).2.1⟩))

theorem fromCompactLoop_token_semi {t : List Char} (hscan : ScanSafe t) (ps : Registry)
    (rest : List Char) :
    fromCompactLoop ps (t ++ ';' :: rest) [] false
      = match flush_token ps t with
        | (ps₁, none) => fromCompactLoop ps₁ rest [] false
        | (ps₁, some e) => (ps₁, some e) := by
  rw [fromCompactLoop_scan hscan ps (';' :: rest) []]
  rw [List.nil_append, fromCompactLoop]
  rw [if_neg Bool.false_ne_true, if_neg (by decide : ¬(';' : Char) = '\\'), if_pos rfl]

theorem from_compact_single (ps : Registry) (n v : String)
    (hn : goodName n = true) (hv : goodName v = true) :
    from_compact_string ps (n ++ "=" ++ v) = flush_token ps (n.data ++ '=' :: v.data) := by
  rw [from_compact_string]
  have hd : (n ++ "=" ++ v).data = n.data ++ '=' :: v.data := by
    rw [data_append, data_append]
    simp
  rw [hd]
  have hscan := fromCompactLoop_scan (scanSafe_token hn hv) ps [] []
  rw [List.append_nil] at hscan
  rw [hscan, List.nil_append, fromCompactLoop, if_neg Bool.false_ne_true]

theorem findEqAux_token {n : String} (hn : goodName n = true) (w : List Char) :
    findEqAux (n.data ++ '=' :: w) 0 false = some n.data.length := by
  have := findEqAux_plain_eq n.data
    (fun c hc => ⟨(goodName_chars hn c hc).1, (goodName_chars hn c hc).2.2⟩) w 0
  simpa using this

theorem flush_token_unknown {ps : Registry} {n : String} (v : String)
    (hn : goodName n = true) (hf : findParam ps n = none) :
    flush_token ps (n.data ++ '=' :: v.data)
      = (ps, some ("Unknown parameter in compact string: '" ++ n ++ "'")) := by
  rw [flush_token]
  have hne : n.data ++ '=' :: v.data ≠ [] := by simp
  rw [if_neg hne, findEqAux_token hn]
  simp only [token_take_name, token_drop_value, string_mk_data, hf]

theorem flush_token_known {ps : Registry} {n : String} {q : ParamData} (v : String)
    (hn : goodName n = true) (hv : goodName v = true) (hfind : findParam ps n = some q) :
    flush_token ps (n.data ++ '=' :: v.data)
      = match q.from_string v with
        | .error e => (ps, some e)
        | .ok q' => (updateParam ps n q', none) := by
  rw [flush_token]
  have hne : n.data ++ '=' :: v.data ≠ [] := by simp
  rw [if_neg hne, findEqAux_token hn]
  have hu : unescape_compact ⟨v.data⟩ = .ok v := by
    rw [unescape_compact, data_string_mk]
    rw [unescapeAux_plain v.data (fun c hc => (goodName_chars hv c hc).1)]
    rw [Except.map, string_mk_data]
  simp only [token_take_name, token_drop_value, string_mk_data, hfind, hu]

/-! ## Lemmas: typed set -/

theorem set_ok_kindMatches {p p' : ParamData} {v : Value} (h : p.set v = .ok p') :
    kindMatches p v = true := by
  cases p <;> cases v <;> first
    | rfl
    | simp [ParamData.set] at h

theorem escapeChars_eq_flatMap : ∀ l : List Char,
    escapeChars l
      = l.flatMap (fun c => if c = '\\' ∨ c = ';' ∨ c = '=' then ['\\', c] else [c]) := by
  intro l
  induction l with
  | nil => rfl
  | cons c cs ih =>
    rw [List.flatMap_cons, escapeChars]
    by_cases hc : c = '\\' ∨ c = ';' ∨ c = '='
    · rw [if_pos hc, if_pos hc, ih]
      rfl
    · rw [if_neg hc, if_neg hc, ih]
      rfl

/-! ## Claims -/

/-- C1, counterexample.  `cexSrc` is a reachable registry state: `a` still
holds its declared default "X" (stored without validation, violating its own
whitelist) and `b` holds 7.  `cexDst` is a fresh registry declared with the
same schema.  Compact-encoding `cexSrc` and decoding into `cexDst` fails
with a constraint error at `a`, and `b` is left at 0 — the round-trip does
not reproduce `b`'s value 7.  The document codec fails on the same state in
the same way. -/
theorem C1_counterexample :
    schemaMap cexDst = schemaMap cexSrc
    ∧ to_compact_string cexSrc = "a=X;b=7"
    ∧ from_compact_string cexDst (to_compact_string cexSrc)
        = (cexDst, some "Value 'X' is not in allowed set")
    ∧ ParamSet.getInt cexSrc "b" = .ok 7
    ∧ ParamSet.getInt (from_compact_string cexDst (to_compact_string cexSrc)).1 "b" = .ok 0
    ∧ from_json cexDst (to_json cexSrc)
        = (cexDst, some "Value 'X' is not in allowed set")
    ∧ ParamSet.getInt (from_json cexDst (to_json cexSrc)).1 "b" = .ok 0 := by
  decide

/-- C1 (amended): for every registry whose declared names are unique and
contain none of `\`, `;`, `=`, and whose every stored value satisfies its
own parameter's constraints, encoding and then decoding into a registry
declared with the same schema succeeds and reproduces every parameter's
value exactly — independently for the compact codec
(`to_compact_string`/`from_compact_string`) and the document codec
(`to_json`/`from_json`). -/
theorem C1_roundtrip_amended (r₁ r₂ : Registry)
    (hnd : (r₁.map Prod.fst).Nodup)
    (hschema : schemaMap r₂ = schemaMap r₁)
    (hval : ∀ e ∈ r₁, e.2.validOK = true)
    (hnames : ∀ e ∈ r₁, goodName e.1 = true) :
    (∃ r₂', from_compact_string r₂ (to_compact_string r₁) = (r₂', none)
      ∧ ∀ n p, findParam r₁ n = some p →
          ∃ q, findParam r₂' n = some q ∧ q.currentValue = p.currentValue)
    ∧ (∃ r₂'', from_json r₂ (to_json r₁) = (r₂'', none)
      ∧ ∀ n p, findParam r₁ n = some p →
          ∃ q, findParam r₂'' n = some q ∧ q.currentValue = p.currentValue) :=
  ⟨compact_roundtrip_aux r₁ r₂ hnd hschema hval hnames,
   json_roundtrip_aux r₁ r₂ hnd hschema hval⟩

/-- C1 witness: the spec's §8 scenario (`speed` = 120, `mode` = "MANUAL")
round-trips through both codecs into a fresh same-schema registry. -/
theorem C1_roundtrip_amended_witness :
    (∃ r₂', from_compact_string demoFresh (to_compact_string demoReg) = (r₂', none)
      ∧ ∀ n p, findParam demoReg n = some p →
          ∃ q, findParam r₂' n = some q ∧ q.currentValue = p.currentValue)
    ∧ (∃ r₂'', from_json demoFresh (to_json demoReg) = (r₂'', none)
      ∧ ∀ n p, findParam demoReg n = some p →
          ∃ q, findParam r₂'' n = some q ∧ q.currentValue = p.currentValue) :=
  C1_roundtrip_amended demoReg demoFresh (by decide) (by decide) (by decide) (by decide)

/-- C2: `to_compact_string` is a pure function of the registry contents
(calling it twice without a mutation yields the same string); replaying the
same declarations in any other order (any permutation of the unique-name
association list) yields a byte-identical string; the emission order is the
sorted name list, which is lexicographically sorted and contains exactly
the declared names. -/
theorem C2_deterministic_sorted (ps ps' : Registry)
    (hnd : (ps.map Prod.fst).Nodup) (hperm : ps.Perm ps') :
    to_compact_string ps = to_compact_string ps
    ∧ to_compact_string ps = to_compact_string ps'
    ∧ (sortedNames ps).Sorted (fun a b : String => strLe a b = true)
    ∧ (sortedNames ps).Perm (ps.map Prod.fst)
    ∧ (to_compact_string ps).data = joinSemi ((sortedNames ps).map (pairOf ps)) :=
  ⟨rfl, to_compact_string_perm hperm hnd, sortedNames_sorted ps, sortedNames_perm ps,
    to_compact_string_data ps⟩

/-- C2 witness: the §8 scenario declared in both orders encodes to the same
string, with `mode` before `speed`. -/
theorem C2_deterministic_sorted_witness :
    to_compact_string demoReg = to_compact_string demoReg
    ∧ to_compact_string demoReg = to_compact_string demoRegSwapped
    ∧ (sortedNames demoReg).Sorted (fun a b : String => strLe a b = true)
    ∧ (sortedNames demoReg).Perm (demoReg.map Prod.fst)
    ∧ (to_compact_string demoReg).data = joinSemi ((sortedNames demoReg).map (pairOf demoReg)) :=
  C2_deterministic_sorted demoReg demoRegSwapped (by decide) (List.Perm.swap _ _ _)

/-- C3: `escape_compact` prefixes exactly `\`, `;`, `=` with one backslash
and leaves every other character unchanged; `unescape_compact` inverts it on
every string; and the §8 scenario value containing `;`, `=` and `\` survives
a full compact encode/decode round-trip unchanged. -/
theorem C3_escaping (s : String) :
    escape_compact s
      = ⟨s.data.flatMap (fun c => if c = '\\' ∨ c = ';' ∨ c = '=' then ['\\', c] else [c])⟩
    ∧ unescape_compact (escape_compact s) = .ok s
    ∧ (from_compact_string escFresh (to_compact_string escReg)).2 = none
    ∧ ParamSet.getString (from_compact_string escFresh (to_compact_string escReg)).1 "t"
        = .ok "a=b; c=\\path\\file; end" := by
  refine ⟨?_, unescape_compact_escape_compact s, ?_, ?_⟩
  · rw [escape_compact, escapeChars_eq_flatMap]
  · decide
  · decide

/-- C4: `ParamSet::set` fails with `UnknownParameter` for an undeclared
name, with `TypeMismatch` when the stored kind differs from the supplied
value's kind (the failed `dynamic_cast`), and with the validator's error
when the value violates the constraints (`Param::set` is validate-then-
assign, so its error is exactly the constraint error); every failure leaves
the whole registry — in particular the parameter's stored value —
unchanged; on success the stored value is the supplied value, observable by
a subsequent lookup, and no other parameter changes. -/
theorem C4_set_atomic (ps : Registry) (name : String) (v : Value) :
    (findParam ps name = none →
      ParamSet.set ps name v = (ps, some ("Unknown parameter: " ++ name)))
  ∧ (∀ p, findParam ps name = some p → kindMatches p v = false →
      ParamSet.set ps name v = (ps, some ("Type mismatch for parameter: " ++ name)))
  ∧ (∀ p e, findParam ps name = some p → kindMatches p v = true → p.set v = .error e →
      ParamSet.set ps name v = (ps, some e))
  ∧ (∀ p p', findParam ps name = some p → p.set v = .ok p' →
      ParamSet.set ps name v = (updateParam ps name p', none)
      ∧ findParam (updateParam ps name p') name = some p'
      ∧ p'.currentValue = v
      ∧ ∀ m, m ≠ name → findParam (updateParam ps name p') m = findParam ps m) := by
  refine ⟨?_, ?_, ?_, ?_⟩
  · intro hf
    rw [ParamSet.set]
    simp only [hf]
  · intro p hf hk
    rw [ParamSet.set]
    simp only [hf, hk]
    rfl
  · intro p e hf hk hset
    rw [ParamSet.set]
    simp only [hf, hk, hset]
    rfl
  · intro p p' hf hset
    have hk := set_ok_kindMatches hset
    refine ⟨?_, findParam_updateParam_same (by rw [hf]; rfl) p',
      set_currentValue hset, fun m hm => findParam_updateParam_ne hm p'⟩
    rw [ParamSet.set]
    simp only [hf, hk, hset]
    simp

/-- C4 witness: on the §8 scenario registry, setting an unknown name fails;
setting `speed` with a string is a type mismatch; `set(speed, -1)` fails
with the constraint error and the registry is unchanged; `set(speed, 120)`
succeeds and is observable. -/
theorem C4_set_atomic_witness :
    ParamSet.set demoFresh "zz" (.vint 1) = (demoFresh, some ("Unknown parameter: " ++ "zz"))
    ∧ ParamSet.set demoFresh "speed" (.vstr "fast")
        = (demoFresh, some ("Type mismatch for parameter: " ++ "speed"))
    ∧ ParamSet.set demoFresh "speed" (.vint (-1))
        = (demoFresh, some "Value -1 is below minimum 0")
    ∧ ParamSet.set demoFresh "speed" (.vint 120)
        = (updateParam demoFresh "speed" (.pint 120 50 cSpeed), none)
    ∧ findParam (updateParam demoFresh "speed" (.pint 120 50 cSpeed)) "speed"
        = some (.pint 120 50 cSpeed) := by
  refine ⟨?_, ?_, ?_, ?_, ?_⟩
  · exact (C4_set_atomic demoFresh "zz" (.vint 1)).1 (by decide)
  · exact (C4_set_atomic demoFresh "speed" (.vstr "fast")).2.1 (.pint 50 50 cSpeed)
      (by decide) (by decide)
  · exact (C4_set_atomic demoFresh "speed" (.vint (-1))).2.2.1 (.pint 50 50 cSpeed)
      "Value -1 is below minimum 0" (by decide) (by decide) (by decide)
  · exact ((C4_set_atomic demoFresh "speed" (.vint 120)).2.2.2 (.pint 50 50 cSpeed)
      (.pint 120 50 cSpeed) (by decide) (by decide)).1
  · exact ((C4_set_atomic demoFresh "speed" (.vint 120)).2.2.2 (.pint 50 50 cSpeed)
      (.pint 120 50 cSpeed) (by decide) (by decide)).2.1

/-- C5: a compact or document decode that succeeds has looked up every
mentioned name (nothing is silently skipped); no decode — successful or
not — ever changes the schema (no parameter is created); and when the
decoder reaches an entry whose name is undeclared it fails with exactly the
unknown-parameter error, both when the entry is followed by more input and
when it is the whole input, for both codecs. -/
theorem C5_unknown_rejection (ps : Registry) :
    (∀ s r', from_compact_string ps s = (r', none) →
        ∀ n ∈ compactMentions s, (findParam ps n).isSome)
  ∧ (∀ s, schemaMap (from_compact_string ps s).1 = schemaMap ps)
  ∧ (∀ doc r', from_json ps doc = (r', none) → ∀ e ∈ doc, e.1 ∈ ps.map Prod.fst)
  ∧ (∀ doc, schemaMap (from_json ps doc).1 = schemaMap ps)
  ∧ (∀ n v, goodName n = true → goodName v = true → findParam ps n = none →
      from_compact_string ps (n ++ "=" ++ v)
        = (ps, some ("Unknown parameter in compact string: '" ++ n ++ "'")))
  ∧ (∀ n v rest, goodName n = true → goodName v = true → findParam ps n = none →
      fromCompactLoop ps ((n.data ++ '=' :: v.data) ++ ';' :: rest) [] false
        = (ps, some ("Unknown parameter in compact string: '" ++ n ++ "'")))
  ∧ (∀ n jv rest, findParam ps n = none →
      from_json ps ((n, jv) :: rest)
        = (ps, some ("Unknown parameter in JSON: '" ++ n ++ "'"))) := by
  refine ⟨?_, ?_, ?_, ?_, ?_, ?_, ?_⟩
  · intro s r' h
    exact from_compact_success_mentions h
  · intro s
    exact from_compact_string_schemaMap ps s
  · intro doc r' h
    exact from_json_success_known doc h
  · intro doc
    exact from_json_schemaMap ps doc
  · intro n v hn hv hf
    rw [from_compact_single ps n v hn hv, flush_token_unknown v hn hf]
  · intro n v rest hn hv hf
    rw [fromCompactLoop_token_semi (scanSafe_token hn hv), flush_token_unknown v hn hf]
  · intro n jv rest hf
    rw [from_json, fromJsonLoop]
    simp [hf]

/-- C5 witness: decoding an input that mentions the undeclared name `zz`
fails with the unknown-parameter error in both codecs. -/
theorem C5_unknown_rejection_witness :
    from_compact_string txReg ("zz" ++ "=" ++ "1")
      = (txReg, some ("Unknown parameter in compact string: '" ++ "zz" ++ "'"))
    ∧ from_json txReg [("zz", .jint 1)]
      = (txReg, some ("Unknown parameter in JSON: '" ++ "zz" ++ "'")) :=
  ⟨(C5_unknown_rejection txReg).2.2.2.2.1 "zz" "1" (by decide) (by decide) (by decide),
   (C5_unknown_rejection txReg).2.2.2.2.2.2 "zz" (.jint 1) [] (by decide)⟩

/-- C6: neither decode is transactional across the registry: decoding
`"a=5;b=99"` (and the analogous document) into `txReg` fails at `b`
(validator error) yet leaves `a`, processed earlier, already mutated from
0 to 5. -/
theorem C6_not_transactional :
    from_compact_string txReg "a=5;b=99" = (txRegAfter, some "Value 99 is above maximum 10")
    ∧ from_json txReg [("a", .jint 5), ("b", .jint 99)]
        = (txRegAfter, some "Value 99 is above maximum 10")
    ∧ ParamSet.getInt txReg "a" = .ok 0
    ∧ ParamSet.getInt txRegAfter "a" = .ok 5
    ∧ ParamSet.getInt txRegAfter "b" = .ok 0 := by
  decide

/-- C7: for text constraints with both length bounds and a whitelist
active, the validator checks length first: a candidate shorter than the
minimum or longer than the maximum fails with the corresponding length
error (whitelist membership notwithstanding), and a candidate within the
bounds but outside the whitelist fails with the not-allowed error; a
candidate satisfying all three passes. -/
theorem C7_length_then_whitelist (c : ConstraintsString) (v : String)
    (hA : c.has_allowed = true) (_hne : c.allowed_values ≠ []) :
    (c.has_min_length = true → v.length < c.min_length →
      validate_constraints_string c v
        = some ("String length " ++ toString v.length ++ " is below minimum "
            ++ toString c.min_length))
  ∧ (c.has_max_length = true → ¬(c.has_min_length = true ∧ v.length < c.min_length) →
      v.length > c.max_length →
      validate_constraints_string c v
        = some ("String length " ++ toString v.length ++ " is above maximum "
            ++ toString c.max_length))
  ∧ (¬(c.has_min_length = true ∧ v.length < c.min_length) →
      ¬(c.has_max_length = true ∧ v.length > c.max_length) →
      v ∉ c.allowed_values →
      validate_constraints_string c v = some ("Value '" ++ v ++ "' is not in allowed set"))
  ∧ (¬(c.has_min_length = true ∧ v.length < c.min_length) →
      ¬(c.has_max_length = true ∧ v.length > c.max_length) →
      v ∈ c.allowed_values →
      validate_constraints_string c v = none) := by
  refine ⟨?_, ?_, ?_, ?_⟩
  · intro hmin hlen
    simp only [validate_constraints_string]
    rw [if_pos ⟨hmin, hlen⟩]
  · intro hmax hnotmin hlen
    simp only [validate_constraints_string]
    rw [if_neg hnotmin, if_pos ⟨hmax, hlen⟩]
  · intro hnotmin hnotmax hnotmem
    simp only [validate_constraints_string]
    rw [if_neg hnotmin, if_neg hnotmax, if_pos ⟨hA, hnotmem⟩]
  · intro hnotmin hnotmax hmem
    simp only [validate_constraints_string]
    rw [if_neg hnotmin, if_neg hnotmax, if_neg (fun hc => hc.2 hmem)]

/-- C7 witness: with bounds [2,4] and whitelist {AUTO, VERYLONGNAME}, the
whitelisted "VERYLONGNAME" still fails with the length error, and the
in-bounds "NO" fails with the not-allowed error. -/
theorem C7_length_then_whitelist_witness :
    validate_constraints_string cBoth "VERYLONGNAME"
      = some ("String length " ++ toString ("VERYLONGNAME" : String).length
          ++ " is above maximum " ++ toString cBoth.max_length)
    ∧ validate_constraints_string cBoth "NO"
      = some ("Value '" ++ "NO" ++ "' is not in allowed set") :=
  ⟨(C7_length_then_whitelist cBoth "VERYLONGNAME" (by decide) (by decide)).2.1
      (by decide) (by decide) (by decide),
   (C7_length_then_whitelist cBoth "NO" (by decide) (by decide)).2.2.1
      (by decide) (by decide) (by decide)⟩

/-- C8, counterexample: the claim says a Boolean parameter accepts "a
number (nonzero meaning true)", but `from_json` only accepts
`is_number_integer()` values — a non-integer JSON number such as `1.5`
(nonzero, so the claim demands `true` be stored) is rejected with
`InvalidDocumentType` and the stored value stays `false`. -/
theorem C8_counterexample :
    from_json flagReg [("flag", .jfloatLit "1.5")]
      = (flagReg, some "Invalid JSON type for boolean parameter: 'flag'")
    ∧ ParamSet.getBool (from_json flagReg [("flag", .jfloatLit "1.5")]).1 "flag"
        = .ok false := by
  decide

/-- C8 (amended): a key bound to a Boolean parameter accepts a native JSON
boolean, an integer-stored number (nonzero meaning true), or a text value
delegated to the parameter's own text-to-bool parsing; any other native
JSON type — including non-integer numbers — fails with the
`InvalidDocumentType` error. -/
theorem C8_bool_coercion_amended (ps : Registry) (name : String) (cur d : Bool)
    (h : findParam ps name = some (.pbool cur d)) :
    (∀ b : Bool, from_json ps [(name, .jbool b)]
        = (updateParam ps name (.pbool b d), none))
  ∧ (∀ k : Int, k ≠ 0 → from_json ps [(name, .jint k)]
        = (updateParam ps name (.pbool true d), none))
  ∧ (from_json ps [(name, .jint 0)] = (updateParam ps name (.pbool false d), none))
  ∧ (∀ s : String, from_json ps [(name, .jstr s)]
        = match (ParamData.pbool cur d).from_string s with
          | .ok p' => (updateParam ps name p', none)
          | .error e => (ps, some e))
  ∧ (∀ lit : String, from_json ps [(name, .jfloatLit lit)]
        = (ps, some ("Invalid JSON type for boolean parameter: '" ++ name ++ "'")))
  ∧ (∀ dmp : String, from_json ps [(name, .jother dmp)]
        = (ps, some ("Invalid JSON type for boolean parameter: '" ++ name ++ "'"))) := by
  refine ⟨?_, ?_, ?_, ?_, ?_, ?_⟩
  · intro b
    rw [from_json, fromJsonLoop]
    simp only [h]
    cases b <;> rfl
  · intro k hk
    rw [from_json, fromJsonLoop]
    simp only [h]
    show (match (ParamData.pbool cur d).from_string (if k ≠ 0 then "1" else "0") with
      | .error e => (ps, some e)
      | .ok p' => fromJsonLoop (updateParam ps name p') []) = _
    rw [if_pos hk]
    rfl
  · rw [from_json, fromJsonLoop]
    simp only [h]
    rfl
  · intro s
    rw [from_json, fromJsonLoop]
    simp only [h]
    show (match (ParamData.pbool cur d).from_string s with
      | .error e => (ps, some e)
      | .ok p' => fromJsonLoop (updateParam ps name p') []) = _
    cases hs : (ParamData.pbool cur d).from_string s with
    | error e => simp [hs]
    | ok p' => simp [hs, fromJsonLoop]
  · intro lit
    rw [from_json, fromJsonLoop]
    simp [h, ParamData.getType, jsonValueString]
  · intro dmp
    rw [from_json, fromJsonLoop]
    simp [h, ParamData.getType, jsonValueString]

/-- C8 witness: on a one-boolean registry, a native boolean, the numbers
3 and 0, and the text "1" are accepted; "true" is rejected by the stream
parser; a float literal is an invalid document type. -/
theorem C8_bool_coercion_amended_witness :
    from_json flagReg [("flag", .jbool true)]
      = (updateParam flagReg "flag" (.pbool true false), none)
    ∧ from_json flagReg [("flag", .jint 3)]
      = (updateParam flagReg "flag" (.pbool true false), none)
    ∧ from_json flagReg [("flag", .jint 0)]
      = (updateParam flagReg "flag" (.pbool false false), none)
    ∧ from_json flagReg [("flag", .jfloatLit "1.5")]
      = (flagReg, some ("Invalid JSON type for boolean parameter: '" ++ "flag" ++ "'")) := by
  refine ⟨?_, ?_, ?_, ?_⟩
  · exact (C8_bool_coercion_amended flagReg "flag" false false (by decide)).1 true
  · exact (C8_bool_coercion_amended flagReg "flag" false false (by decide)).2.1 3 (by decide)
  · exact (C8_bool_coercion_amended flagReg "flag" false false (by decide)).2.2.1
  · exact (C8_bool_coercion_amended flagReg "flag" false false (by decide)).2.2.2.2.1 "1.5"

/-- C9: declaration stores the default as the current value with no
constraint check — for each kind, `add` on a fresh name succeeds, appends
the parameter with `value = default`, and an immediate `get` returns the
default, whatever the constraints say about it; declaring an existing name
fails with the duplicate-name error. -/
theorem C9_declare_default (ps : Registry) (name : String) :
    (∀ (d : Int) (c : ConstraintsInt), findParam ps name = none →
      ParamSet.addInt ps name d c = .ok (ps ++ [(name, .pint d d c)])
      ∧ ParamSet.getInt (ps ++ [(name, .pint d d c)]) name = .ok d)
  ∧ (∀ d : Bool, findParam ps name = none →
      ParamSet.addBool ps name d = .ok (ps ++ [(name, .pbool d d)])
      ∧ ParamSet.getBool (ps ++ [(name, .pbool d d)]) name = .ok d)
  ∧ (∀ (d : String) (c : ConstraintsString), findParam ps name = none →
      ParamSet.addString ps name d c = .ok (ps ++ [(name, .pstr d d c)])
      ∧ ParamSet.getString (ps ++ [(name, .pstr d d c)]) name = .ok d)
  ∧ (∀ p q : ParamData, findParam ps name = some q →
      ParamSet.add ps name p = .error ("Parameter already exists: " ++ name)) := by
  refine ⟨?_, ?_, ?_, ?_⟩
  · intro d c hf
    constructor
    · rw [ParamSet.addInt, ParamSet.add]
      simp only [hf]
    · rw [ParamSet.getInt, findParam_append_absent hf]
  · intro d hf
    constructor
    · rw [ParamSet.addBool, ParamSet.add]
      simp only [hf]
    · rw [ParamSet.getBool, findParam_append_absent hf]
  · intro d c hf
    constructor
    · rw [ParamSet.addString, ParamSet.add]
      simp only [hf]
    · rw [ParamSet.getString, findParam_append_absent hf]
  · intro p q hf
    rw [ParamSet.add]
    simp only [hf]

/-- C9 witness: declaring a text parameter whose default "X" violates its
own whitelist succeeds, and `get` immediately returns "X"; re-declaring the
name fails. -/
theorem C9_declare_default_witness :
    (ParamSet.addString [] "m" "X" cAllowOnly = .ok [("m", .pstr "X" "X" cAllowOnly)]
      ∧ ParamSet.getString [("m", .pstr "X" "X" cAllowOnly)] "m" = .ok "X")
    ∧ validate_constraints_string cAllowOnly "X" = some "Value 'X' is not in allowed set"
    ∧ ParamSet.add [("m", .pstr "X" "X" cAllowOnly)] "m" (.pbool true true)
        = .error ("Parameter already exists: " ++ "m") := by
  refine ⟨?_, by decide, ?_⟩
  · have h := (C9_declare_default [] "m").2.2.1 "X" cAllowOnly (by decide)
    exact ⟨h.1, h.2⟩
  · exact (C9_declare_default [("m", .pstr "X" "X" cAllowOnly)] "m").2.2.2
      (.pbool true true) (.pstr "X" "X" cAllowOnly) (by decide)

/-- C10: a boolean parameter renders as exactly "1" (true) / "0" (false);
`from_string` delegates to stream extraction of a numeric boolean and
succeeds exactly when the text stream-parses to the value 0 or 1; in
particular "true" and "false" fail with the parse error, and decoding a
compact entry carrying `=true` for a boolean parameter fails and leaves the
registry — hence the stored value — unchanged. -/
theorem C10_bool_text (cur d : Bool) :
    (ParamData.pbool true d).to_string = "1"
  ∧ (ParamData.pbool false d).to_string = "0"
  ∧ (∀ s, parseStreamInt s = some 0 →
      (ParamData.pbool cur d).from_string s = .ok (.pbool false d))
  ∧ (∀ s, parseStreamInt s = some 1 →
      (ParamData.pbool cur d).from_string s = .ok (.pbool true d))
  ∧ (∀ s, (∃ p', (ParamData.pbool cur d).from_string s = .ok p')
      ↔ (parseStreamInt s = some 0 ∨ parseStreamInt s = some 1))
  ∧ (ParamData.pbool cur d).from_string "true"
      = .error "Failed to parse value from string: 'true'"
  ∧ (ParamData.pbool cur d).from_string "false"
      = .error "Failed to parse value from string: 'false'"
  ∧ (∀ ps name, goodName name = true → findParam ps name = some (.pbool cur d) →
      from_compact_string ps (name ++ "=" ++ "true")
        = (ps, some "Failed to parse value from string: 'true'")) := by
  refine ⟨rfl, rfl, ?_, ?_, ?_, rfl, rfl, ?_⟩
  · intro s hs
    rw [ParamData.from_string]
    simp only [hs]
  · intro s hs
    rw [ParamData.from_string]
    simp only [hs]
  · intro s
    constructor
    · rintro ⟨p', hp⟩
      rw [ParamData.from_string] at hp
      split at hp
      · left; assumption
      · right; assumption
      · cases hp
    · rintro (hs | hs)
      · exact ⟨.pbool false d, by rw [ParamData.from_string]; simp only [hs]⟩
      · exact ⟨.pbool true d, by rw [ParamData.from_string]; simp only [hs]⟩
  · intro ps name hgn hfind
    rw [from_compact_single ps name "true" hgn (by decide)]
    rw [flush_token_known "true" hgn (by decide) hfind]
    rfl

/-- C10 witness: a concrete boolean parameter renders and parses as
claimed: "01" parses (value 1), "true", "-1" and "2" fail. -/
theorem C10_bool_text_witness :
    (ParamData.pbool true false).to_string = "1"
    ∧ (ParamData.pbool false true).to_string = "0"
    ∧ (ParamData.pbool false false).from_string "01" = .ok (.pbool true false)
    ∧ (ParamData.pbool false false).from_string "true"
        = .error "Failed to parse value from string: 'true'"
    ∧ from_compact_string flagReg ("flag" ++ "=" ++ "true")
        = (flagReg, some "Failed to parse value from string: 'true'") := by
  refine ⟨(C10_bool_text false false).1, (C10_bool_text false true).2.1, ?_, ?_, ?_⟩
  · exact (C10_bool_text false false).2.2.2.1 "01" (by decide)
  · exact (C10_bool_text false false).2.2.2.2.2.1
  · exact (C10_bool_text false false).2.2.2.2.2.2.2 flagReg "flag" (by decide) (by decide)

end JsonMP
